import Mathlib

/-!
Formal model of the restaurant event pipeline repository
(`event_generator.py`, `mock_event_stream.py`, `consumer.py`).

Python dictionaries are modelled as insertion-ordered association lists,
floats carrying money values as exact rationals, `datetime` values as
microseconds since the Unix epoch, and every random draw as a value read
from an explicit oracle (`Rand`).  Randomized choices made with
`random.randint(a, b)` / `random.choice(l)` are modelled by reducing the
oracle value into the range the library call guarantees.
-/

namespace RestroModel

/-! ### Decimal rendering primitives (used by f-strings and `isoformat`) -/

/-- Decimal digit character for the last digit of a natural number. -/
def dchar (n : ℕ) : Char := Char.ofNat (48 + n % 10)

/-- Fixed-width decimal rendering: the last `k` digits of `n`, zero padded;
models Python's `f"{n:0kd}"` for `n < 10^k`. -/
def padNat : ℕ → ℕ → List Char
  | 0, _ => []
  | k + 1, n => padNat k (n / 10) ++ [dchar n]

/-- Fuelled digit renderer (structural recursion so that the kernel can
evaluate it; the fuel bounds the number of digits). -/
def natDigsF : ℕ → ℕ → List Char
  | 0, _ => []
  | fu + 1, n => if n < 10 then [dchar n] else natDigsF fu (n / 10) ++ [dchar n]

/-- Unpadded decimal rendering of a natural number, models `str(n)`. -/
def natDigs (n : ℕ) : List Char := natDigsF (n + 1) n

/-! Gregorian civil date from days since 1970-01-01: the standard
era-based algorithm used by calendar libraries, split into one function
per component (`mp` is the shifted month index of that algorithm). -/

/-- Shifted month index (0 = March … 11 = February). -/
def cdMp (z0 : ℕ) : ℕ :=
  let doe := (z0 + 719468) % 146097
  let yoe := (doe - doe / 1460 + doe / 36524 - doe / 146096) / 365
  let doy := doe - (365 * yoe + yoe / 4 - yoe / 100)
  (5 * doy + 2) / 153

/-- Civil month (1–12) of a day count since the epoch. -/
def civilMonth (z0 : ℕ) : ℕ :=
  if cdMp z0 < 10 then cdMp z0 + 3 else cdMp z0 - 9

/-- Civil day of month of a day count since the epoch. -/
def civilDay (z0 : ℕ) : ℕ :=
  let doe := (z0 + 719468) % 146097
  let yoe := (doe - doe / 1460 + doe / 36524 - doe / 146096) / 365
  let doy := doe - (365 * yoe + yoe / 4 - yoe / 100)
  doy - (153 * cdMp z0 + 2) / 5 + 1

/-- Civil year of a day count since the epoch. -/
def civilYear (z0 : ℕ) : ℕ :=
  let doe := (z0 + 719468) % 146097
  let yoe := (doe - doe / 1460 + doe / 36524 - doe / 146096) / 365
  yoe + ((z0 + 719468) / 146097) * 400 + (if civilMonth z0 ≤ 2 then 1 else 0)

/-- The character list `YYYY-MM-DDTHH:MM:SS` followed by `tail`. -/
def isoCore (y mo d hr mi se : ℕ) (tail : List Char) : List Char :=
  padNat 4 y ++ ('-' :: (padNat 2 mo ++ ('-' :: (padNat 2 d ++
  ('T' :: (padNat 2 hr ++ (':' :: (padNat 2 mi ++
  (':' :: (padNat 2 se ++ tail))))))))))

/-- Models `datetime.isoformat()` for a timestamp given as microseconds
since the Unix epoch: `YYYY-MM-DDTHH:MM:SS` with a `.ffffff` part exactly
when the microsecond component is nonzero.  Components are rendered with
the same zero padding CPython uses (years of the events fit in 4 digits;
the `% 10^k` inside `padNat` makes the truncation explicit). -/
def isoformat (t : ℕ) : String :=
  let us := t % 1000000
  let s := t / 1000000
  let days := s / 86400
  String.mk
    (isoCore (civilYear days) (civilMonth days) (civilDay days)
      (s / 3600 % 24) (s / 60 % 60) (s % 60)
      (if us = 0 then [] else '.' :: padNat 6 us))

/-- ASCII decimal digit test. -/
def isDigitCh (c : Char) : Bool := 48 ≤ c.toNat && c.toNat ≤ 57

/-- Consume exactly `k` decimal digits from the front of a character list. -/
def chkDigits : ℕ → List Char → Option (List Char)
  | 0, l => some l
  | k + 1, c :: r => if isDigitCh c then chkDigits k r else none
  | _ + 1, [] => none

/-- Consume one expected literal character. -/
def chkLit (c : Char) : List Char → Option (List Char)
  | x :: r => if x = c then some r else none
  | [] => none

/-- Consume the `YYYY-MM-DDTHH:MM:SS` prefix of an ISO-8601 date-time. -/
def isoMain (l : List Char) : Option (List Char) :=
  chkDigits 4 l >>= chkLit '-' >>= chkDigits 2 >>= chkLit '-' >>=
  chkDigits 2 >>= chkLit 'T' >>= chkDigits 2 >>= chkLit ':' >>=
  chkDigits 2 >>= chkLit ':' >>= chkDigits 2

/-- Accept an empty tail or a `.ffffff` fractional-seconds tail. -/
def isoTailOk : Option (List Char) → Bool
  | none => false
  | some [] => true
  | some rest =>
    match chkLit '.' rest >>= chkDigits 6 with
    | some [] => true
    | _ => false

/-- Shape check for the ISO-8601 date-time strings `datetime.isoformat`
produces: `YYYY-MM-DDTHH:MM:SS` optionally followed by `.ffffff`. -/
def isIso8601 (s : String) : Bool := isoTailOk (isoMain s.data)

/-! ### The wire data model

Events are Python dicts whose values are strings, numbers, or (only for
`order_placed.items`) a list of flat dicts.  A number is stored as an
exact scaled decimal `m / 10^e`: integers have `e = 0` and money amounts
have `e = 2`, mirroring the decimal values the generator's floats carry. -/

/-- A primitive JSON value of the stream: a string or a scaled decimal. -/
inductive Prim where
  | s (v : String)
  | n (m : ℤ) (e : ℕ)
deriving DecidableEq, Repr

/-- A flat JSON object (an order line item). -/
abbrev Obj := List (String × Prim)

/-- A field value of an event: a primitive or an array of flat objects. -/
inductive JField where
  | sc (v : Prim)
  | arr (l : List Obj)
deriving DecidableEq, Repr

/-- An event: a Python dict in insertion order. -/
abbrev Event := List (String × JField)

/-- The rational value carried by a numeric primitive. -/
def primRat : Prim → Option ℚ
  | .n m e => some ((m : ℚ) / 10 ^ e)
  | .s _ => none

/-- Association-list lookup, models `d[k]` / `d.get(k)` on a Python dict. -/
def alookup {α : Type} : List (String × α) → String → Option α
  | [], _ => none
  | (k, v) :: r, key => if k = key then some v else alookup r key

/-- Association-list update, models Python dict assignment `d[k] = v`
(replaces in place, appends when the key is new). -/
def setField {α : Type} : List (String × α) → String → α → List (String × α)
  | [], k, v => [(k, v)]
  | (k', v') :: r, k, v =>
    if k' = k then (k, v) :: r else (k', v') :: setField r k v

/-- Field read on an event. -/
def getField (e : Event) (k : String) : Option JField := alookup e k

/-- Numeric field read as a rational. -/
def numAt (e : Event) (k : String) : Option ℚ :=
  match getField e k with
  | some (.sc p) => primRat p
  | _ => none

/-- Numeric field read on a flat object. -/
def numAtO (o : Obj) (k : String) : Option ℚ :=
  match alookup o k with
  | some p => primRat p
  | none => none

/-- `round(q, 2)` on the exact rational carried by a Python float. -/
def round2 (q : ℚ) : ℚ := ((round (q * 100) : ℤ) : ℚ) / 100

/-- Storage of a (2-decimal) money amount as the scaled decimal the
generator's float serializes to. -/
def asCents2 (q : ℚ) : Prim := .n (round (q * 100)) 2

/-! ### The randomness oracle

Each field records one outcome of the corresponding `random.*` call in
`RestaurantEventGenerator`; per-index functions stand for calls made
inside loops.  The library call's range guarantee is re-imposed where
the value is used (`randintN`, `choiceL`). -/

/-- Oracle of random outcomes for one table session plus the disturbance
pass of `introduce_issues`. -/
structure Rand where
  restR : ℕ
  tableR : ℕ
  serverR : ℕ
  orderUuid : String
  partyR : ℕ
  uuid : ℕ → String
  placeOrder : Bool
  orderDelayR : ℕ
  numItemsR : ℕ
  catR : ℕ → ℕ
  itemR : ℕ → ℕ
  qtyR : ℕ → ℕ
  hashF : String → ℕ
  kitchenR : ℕ
  doPayment : Bool
  payDelayR : ℕ
  tipR : ℕ
  payMethodR : ℕ
  dupCoin : ℕ → Bool
  lateCoin : ℕ → Bool
  shuffleCoin : Bool
  shuffleStartR : ℕ
  shuffleLenR : ℕ
  fyR : ℕ → ℕ

/-- Models `random.randint(lo, hi)`: a value in `[lo, hi]` driven by the
oracle value `r` (requires `lo ≤ hi`, as at every call site). -/
def randintN (lo hi r : ℕ) : ℕ := lo + r % (hi + 1 - lo)

/-- Models `random.choice(l)` / `random.choices(l, weights)[0]`: an
element of `l` selected by the oracle value `r`. -/
def choiceL {α : Type} (l : List α) (d : α) (r : ℕ) : α :=
  l.getD (r % l.length) d

/-- Minutes rendered as epoch microseconds, models `timedelta(minutes=m)`. -/
def minutesUs (m : ℕ) : ℕ := m * 60000000

/-! ### `RestaurantEventGenerator` constants (prices in cents) -/

/-- `RestaurantEventGenerator.RESTAURANTS`. -/
def RESTAURANTS : List (String × String) :=
  [("rest_001", "Downtown Location"), ("rest_002", "Westside Location"),
   ("rest_003", "Eastside Location"), ("rest_004", "Uptown Location"),
   ("rest_005", "Suburban Location")]

/-- `RestaurantEventGenerator.MENU_ITEMS`, in dict insertion order, with
prices as exact cents. -/
def MENU_ITEMS : List (String × List (String × ℤ)) :=
  [("Pizza",
    [("Margherita Pizza", 1899), ("Pepperoni Pizza", 2099),
     ("Quattro Formaggi", 2299), ("BBQ Chicken Pizza", 2199),
     ("Veggie Supreme Pizza", 1999)]),
   ("Pasta",
    [("Spaghetti Carbonara", 1699), ("Fettuccine Alfredo", 1799),
     ("Penne Arrabbiata", 1599), ("Lasagna Bolognese", 1999),
     ("Seafood Linguine", 2499)]),
   ("Salad",
    [("Caesar Salad", 1299), ("Greek Salad", 1399),
     ("House Garden Salad", 1099), ("Caprese Salad", 1499)]),
   ("Appetizer",
    [("Garlic Bread", 799), ("Bruschetta", 999),
     ("Mozzarella Sticks", 1099), ("Calamari", 1399), ("Wings", 1299)]),
   ("Entree",
    [("Grilled Salmon", 2699), ("Ribeye Steak", 3499),
     ("Chicken Parmesan", 2199), ("Lamb Chops", 3299),
     ("Eggplant Parmigiana", 1899)]),
   ("Dessert",
    [("Tiramisu", 899), ("Chocolate Lava Cake", 999),
     ("Cheesecake", 899), ("Gelato", 699)]),
   ("Beverage",
    [("Soft Drink", 399), ("Iced Tea", 399), ("Sparkling Water", 499),
     ("Fresh Juice", 599), ("Coffee", 399)])]

/-- `list(MENU_ITEMS.keys())`. -/
def menuKeys : List String := MENU_ITEMS.map Prod.fst

/-- `generate_item_id`: `f"item_{hash(category + item_name) % 100000:05d}"`
with Python's process-randomized `hash` read from the oracle. -/
def generate_item_id (g : Rand) (category item_name : String) : String :=
  "item_" ++ String.mk (padNat 5 (g.hashF (category ++ item_name)))

/-- Category drawn for the `k`-th line item of the session's order. -/
def itemCat (g : Rand) (k : ℕ) : String := choiceL menuKeys "" (g.catR k)

/-- `(item_name, price)` drawn for the `k`-th line item. -/
def itemPick (g : Rand) (k : ℕ) : String × ℤ :=
  choiceL ((alookup MENU_ITEMS (itemCat g k)).getD []) ("", 0) (g.itemR k)

/-- Quantity drawn for the `k`-th line item
(`random.choices([1, 2], weights=[85, 15])[0]`). -/
def itemQty (g : Rand) (k : ℕ) : ℕ := choiceL [1, 2] 1 (g.qtyR k)

/-- The dict appended to `order_items` for the `k`-th line item. -/
def itemObj (g : Rand) (k : ℕ) : Obj :=
  [("item_id", .s (generate_item_id g (itemCat g k) (itemPick g k).1)),
   ("item_name", .s (itemPick g k).1),
   ("category", .s (itemCat g k)),
   ("price", .n (itemPick g k).2 2),
   ("quantity", .n (itemQty g k) 0)]

/-- Price of the `k`-th line item in dollars (the float the code adds). -/
def itemPriceQ (g : Rand) (k : ℕ) : ℚ := ((itemPick g k).2 : ℚ) / 100

/-- Running `subtotal += price * quantity` over the order's items. -/
def subtotalQ (g : Rand) (n : ℕ) : ℚ :=
  ((List.range n).map fun k => itemPriceQ g k * (itemQty g k : ℚ)).sum

/-- `{"table_id": ..., "events": [...]}` returned by the generator. -/
structure Session where
  table_id : String
  events : List Event
deriving Repr

/-- `table_id` drawn for the session. -/
def sessTableId (g : Rand) : String :=
  "table_" ++ String.mk (padNat 2 (randintN 1 30 g.tableR))

/-- `server_id` drawn for the session. -/
def sessServerId (g : Rand) : String :=
  "server_" ++ String.mk (padNat 3 (randintN 100 999 g.serverR))

/-- `order_id` drawn for the session (`f"order_{fake.uuid4()[:8]}"`). -/
def sessOrderId (g : Rand) : String := "order_" ++ g.orderUuid

/-! `RestaurantEventGenerator.generate_table_session`, with
`base` = `datetime.now()` in epoch microseconds and every random draw
taken from the oracle `g`.  Each local assignment of the Python method
is a named definition; `generate_table_session` assembles the same
events the method appends. -/

/-- `random.choice(self.RESTAURANTS)`. -/
def sessRest (g : Rand) : String × String := choiceL RESTAURANTS ("", "") g.restR

/-- `random.choices([2, 3, 4, 5, 6], ...)[0]`. -/
def sessParty (g : Rand) : ℕ := choiceL [2, 3, 4, 5, 6] 2 g.partyR

/-- The `table_seated` event appended first in every session. -/
def seatedEvent (g : Rand) (base : ℕ) : Event :=
  [("event_id", .sc (.s (g.uuid 0))),
   ("event_type", .sc (.s "table_seated")),
   ("timestamp", .sc (.s (isoformat base))),
   ("restaurant_id", .sc (.s (sessRest g).1)),
   ("restaurant_name", .sc (.s (sessRest g).2)),
   ("table_id", .sc (.s (sessTableId g))),
   ("party_size", .sc (.n (sessParty g) 0)),
   ("server_id", .sc (.s (sessServerId g)))]

/-- `order_timestamp = seated_timestamp + timedelta(minutes=randint(5, 15))`. -/
def orderTms (g : Rand) (base : ℕ) : ℕ :=
  base + minutesUs (randintN 5 15 g.orderDelayR)

/-- `num_items = random.randint(2, 6)`. -/
def numItems (g : Rand) : ℕ := randintN 2 6 g.numItemsR

/-- `subtotal = round(subtotal, 2)` after the item loop. -/
def sessSubR (g : Rand) : ℚ := round2 (subtotalQ g (numItems g))

/-- The `order_placed` event (when the 90% coin hits). -/
def orderEvent (g : Rand) (base : ℕ) : Event :=
  [("event_id", .sc (.s (g.uuid 1))),
   ("event_type", .sc (.s "order_placed")),
   ("timestamp", .sc (.s (isoformat (orderTms g base)))),
   ("restaurant_id", .sc (.s (sessRest g).1)),
   ("restaurant_name", .sc (.s (sessRest g).2)),
   ("table_id", .sc (.s (sessTableId g))),
   ("server_id", .sc (.s (sessServerId g))),
   ("order_id", .sc (.s (sessOrderId g))),
   ("items", .arr ((List.range (numItems g)).map (itemObj g))),
   ("subtotal", .sc (asCents2 (sessSubR g)))]

/-- `kitchen_time_minutes = random.randint(15, 35)`. -/
def sessKtm (g : Rand) : ℕ := randintN 15 35 g.kitchenR

/-- `completed_timestamp = order_timestamp + timedelta(minutes=kitchen_time_minutes)`. -/
def compTms (g : Rand) (base : ℕ) : ℕ :=
  orderTms g base + minutesUs (sessKtm g)

/-- The `order_completed` event (always follows `order_placed`). -/
def completedEvent (g : Rand) (base : ℕ) : Event :=
  [("event_id", .sc (.s (g.uuid 2))),
   ("event_type", .sc (.s "order_completed")),
   ("timestamp", .sc (.s (isoformat (compTms g base)))),
   ("restaurant_id", .sc (.s (sessRest g).1)),
   ("restaurant_name", .sc (.s (sessRest g).2)),
   ("table_id", .sc (.s (sessTableId g))),
   ("order_id", .sc (.s (sessOrderId g))),
   ("kitchen_time_minutes", .sc (.n (sessKtm g) 0))]

/-- `payment_timestamp = completed_timestamp + timedelta(minutes=randint(10, 25))`. -/
def payTms (g : Rand) (base : ℕ) : ℕ :=
  compTms g base + minutesUs (randintN 10 25 g.payDelayR)

/-- `tax = round(subtotal * 0.09, 2)`. -/
def sessTax (g : Rand) : ℚ := round2 (sessSubR g * 0.09)

/-- `random.choice([0.15, 0.18, 0.20, 0.22, 0.25])`. -/
def sessTipRate (g : Rand) : ℚ :=
  choiceL [(0.15 : ℚ), 0.18, 0.20, 0.22, 0.25] 0.15 g.tipR

/-- `tip = round(subtotal * ..., 2)`. -/
def sessTip (g : Rand) : ℚ := round2 (sessSubR g * sessTipRate g)

/-- `total_amount = round(subtotal + tax + tip, 2)`. -/
def sessTotal (g : Rand) : ℚ := round2 (sessSubR g + sessTax g + sessTip g)

/-- `random.choices(["credit_card", "debit_card", "cash", "mobile_payment"], ...)[0]`. -/
def sessPayMethod (g : Rand) : String :=
  choiceL ["credit_card", "debit_card", "cash", "mobile_payment"]
    "credit_card" g.payMethodR

/-- The `payment` event (when the 95% coin hits). -/
def paymentEvent (g : Rand) (base : ℕ) : Event :=
  [("event_id", .sc (.s (g.uuid 3))),
   ("event_type", .sc (.s "payment")),
   ("timestamp", .sc (.s (isoformat (payTms g base)))),
   ("restaurant_id", .sc (.s (sessRest g).1)),
   ("restaurant_name", .sc (.s (sessRest g).2)),
   ("table_id", .sc (.s (sessTableId g))),
   ("order_id", .sc (.s (sessOrderId g))),
   ("subtotal", .sc (asCents2 (sessSubR g))),
   ("tax", .sc (asCents2 (sessTax g))),
   ("tip", .sc (asCents2 (sessTip g))),
   ("total_amount", .sc (asCents2 (sessTotal g))),
   ("payment_method", .sc (.s (sessPayMethod g)))]

/-- `RestaurantEventGenerator.generate_table_session`. -/
def generate_table_session (g : Rand) (base : ℕ) : Session :=
  if g.placeOrder then
    if g.doPayment then
      ⟨sessTableId g,
       [seatedEvent g base, orderEvent g base, completedEvent g base,
        paymentEvent g base]⟩
    else
      ⟨sessTableId g,
       [seatedEvent g base, orderEvent g base, completedEvent g base]⟩
  else ⟨sessTableId g, [seatedEvent g base]⟩

/-! ### `RestaurantEventGenerator.introduce_issues` -/

/-- The duplicate `introduce_issues` builds: `duplicate = event.copy()`
followed by `duplicate["event_id"] = event["event_id"]`.  On events that
carry an `event_id` (all generated events do) the reassignment is the
identity; Python would raise `KeyError` on an event without one, which
the model renders as the identity as well. -/
def dupCopy (e : Event) : Event :=
  match getField e "event_id" with
  | some v => setField e "event_id" v
  | none => e

/-- The block of output events contributed by the `i`-th input event:
the original, then its duplicate when the 5% coin hits, then the
late-arrival copy when the 3% coin hits. -/
def expandOne (g : Rand) (i : ℕ) (e : Event) : List Event :=
  e :: ((if g.dupCoin i then [dupCopy e] else []) ++
        (if g.lateCoin i then [e] else []))

/-- `modified_events` before the optional out-of-order shuffle. -/
def preShuffle (g : Rand) (evs : List Event) : List Event :=
  (evs.enum.map fun p => expandOne g p.1 p.2).flatten

/-- One Python swap `x[i], x[j] = x[j], x[i]` (identity out of bounds;
`random.shuffle` only swaps in bounds). -/
def swapL {α : Type} (l : List α) (i j : ℕ) : List α :=
  match l[i]?, l[j]? with
  | some a, some b => (l.set i b).set j a
  | _, _ => l

/-- The Fisher–Yates loop of `random.shuffle`: for `i` from `n-1` down to
`1`, swap position `i` with an oracle-chosen `j ≤ i`. -/
def shuffleGo {α : Type} (r : ℕ → ℕ) : ℕ → List α → List α
  | 0, l => l
  | i + 1, l => shuffleGo r i (swapL l (i + 1) (r (i + 1) % (i + 2)))

/-- `random.shuffle(l)` driven by the oracle `r`. -/
def shuffleL {α : Type} (r : ℕ → ℕ) (l : List α) : List α :=
  shuffleGo r (l.length - 1) l

/-- `RestaurantEventGenerator.introduce_issues`. -/
def introduce_issues (g : Rand) (evs : List Event) : List Event :=
  let m := preShuffle g evs
  if g.shuffleCoin ∧ 2 < m.length then
    let s := randintN 0 (m.length - 2) g.shuffleStartR
    let e := min (s + randintN 2 5 g.shuffleLenR) m.length
    let subset := (m.drop s).take (e - s)
    m.take s ++ shuffleL g.fyR subset ++ m.drop e
  else m

/-! ### JSON serialization

Models `json.dumps` (default separators `", "` / `": "`) and
`json.loads` on the fragment of JSON the generator's events occupy:
strings, decimal numbers, flat objects, one level of object arrays.
Braces are spelled via `Char.ofNat`. -/

/-- `.x7b` -/
def lbr : Char := Char.ofNat 123

/-- `.x7d` -/
def rbr : Char := Char.ofNat 125

/-- JSON string escaping for the characters the generator's strings can
contain (`json.dumps` additionally escapes control and non-ASCII
characters, which `jsonReady` excludes). -/
def escChar (c : Char) : List Char :=
  if c = '"' ∨ c = '\\' then ['\\', c] else [c]

/-- Encoded JSON string literal. -/
def encStr (s : String) : List Char :=
  '"' :: (s.data.map escChar).flatten ++ ['"']

/-- Digits of the magnitude `a / 10^e`: the integer part, then `e`
fraction digits after a point (none when `e = 0`). -/
def encNumAbs (a : ℕ) (e : ℕ) : List Char :=
  if e = 0 then natDigs a
  else natDigs (a / 10 ^ e) ++ '.' :: padNat e a

/-- Encoded decimal number: `m / 10^e` with exactly `e` digits after the
point. -/
def encNum (m : ℤ) (e : ℕ) : List Char :=
  (if m < 0 then ['-'] else []) ++ encNumAbs m.natAbs e

/-- Encoded primitive. -/
def encPrim : Prim → List Char
  | .s v => encStr v
  | .n m e => encNum m e

/-- `", "`-separated concatenation, as `json.dumps` emits by default. -/
def sepJoin : List (List Char) → List Char
  | [] => []
  | [x] => x
  | x :: y :: xs => x ++ ',' :: ' ' :: sepJoin (y :: xs)

/-- Encoded key/value pair `"k": v`. -/
def encPair (k : String) (v : List Char) : List Char :=
  encStr k ++ ':' :: ' ' :: v

/-- Encoded flat object (a line item). -/
def encObj (o : Obj) : List Char :=
  lbr :: sepJoin (o.map fun p => encPair p.1 (encPrim p.2)) ++ [rbr]

/-- Encoded event field value. -/
def encField : JField → List Char
  | .sc v => encPrim v
  | .arr l => '[' :: sepJoin (l.map encObj) ++ [']']

/-- `json.dumps(event)`. -/
def encEvent (ev : Event) : List Char :=
  lbr :: sepJoin (ev.map fun p => encPair p.1 (encField p.2)) ++ [rbr]

/-- Skip blanks between JSON tokens. -/
def skipSp (l : List Char) : List Char := l.dropWhile (· = ' ')

/-- Body of a JSON string literal after the opening quote: one character
per step, `esc` records that the previous character was a backslash, and
`acc` accumulates the decoded characters in reverse. -/
def parseStrBody : List Char → Bool → List Char → Option (String × List Char)
  | [], _, _ => none
  | c :: r, esc, acc =>
    if esc then
      if c = '"' ∨ c = '\\' then parseStrBody r false (c :: acc) else none
    else if c = '"' then some (String.mk acc.reverse, r)
    else if c = '\\' then parseStrBody r true acc
    else parseStrBody r false (c :: acc)

/-- JSON string literal. -/
def parseStr : List Char → Option (String × List Char)
  | c :: r => if c = '"' then parseStrBody r false [] else none
  | [] => none

/-- Consume a maximal digit run, returning its value, its length and the
rest. -/
def parseDigs : List Char → ℕ → ℕ → ℕ × ℕ × List Char
  | [], v, k => (v, k, [])
  | c :: r, v, k =>
    if isDigitCh c then parseDigs r (10 * v + (c.toNat - 48)) (k + 1)
    else (v, k, c :: r)

/-- A nonempty digit run. -/
def parseNatL (l : List Char) : Option (ℕ × ℕ × List Char) :=
  match l with
  | c :: _ => if isDigitCh c then some (parseDigs l 0 0) else none
  | [] => none

/-- Integer with optional sign. -/
def signVal (neg : Bool) (x : ℕ) : ℤ := if neg then -(x : ℤ) else (x : ℤ)

/-- Digits of a JSON number after the optional sign. -/
def parseNumTail (neg : Bool) (l : List Char) : Option (Prim × List Char) :=
  match parseNatL l with
  | none => none
  | some (ip, _, r1) =>
    match r1 with
    | c :: r2 =>
      if c = '.' then
        match parseNatL r2 with
        | none => none
        | some (fp, k2, r3) => some (.n (signVal neg (ip * 10 ^ k2 + fp)) k2, r3)
      else some (.n (signVal neg ip) 0, c :: r2)
    | [] => some (.n (signVal neg ip) 0, [])

/-- JSON number (the decimal fragment the generator emits). -/
def parseNumP (l : List Char) : Option (Prim × List Char) :=
  match l with
  | c :: r => if c = '-' then parseNumTail true r else parseNumTail false l
  | [] => none

/-- JSON primitive: a string or a number. -/
def parsePrim (l : List Char) : Option (Prim × List Char) :=
  match l with
  | c :: _ => if c = '"' then (parseStr l).map (fun p => (.s p.1, p.2)) else parseNumP l
  | [] => none

/-- Nonempty field list of a flat object (fuelled loop; the fuel is an
upper bound on the field count). -/
def parseObjFields : ℕ → List Char → Option (Obj × List Char)
  | 0, _ => none
  | fu + 1, l =>
    match parseStr l with
    | none => none
    | some (k, r1) =>
      match chkLit ':' (skipSp r1) with
      | none => none
      | some r2 =>
        match parsePrim (skipSp r2) with
        | none => none
        | some (v, r3) =>
          match skipSp r3 with
          | [] => none
          | c :: r5 =>
            if c = ',' then
              match parseObjFields fu (skipSp r5) with
              | some (rest, r6) => some ((k, v) :: rest, r6)
              | none => none
            else if c = rbr then some ([(k, v)], r5)
            else none

/-- Flat JSON object. -/
def parseObj (fu : ℕ) (l : List Char) : Option (Obj × List Char) :=
  match chkLit lbr l with
  | none => none
  | some r =>
    match skipSp r with
    | [] => none
    | c :: r2 => if c = rbr then some ([], r2) else parseObjFields fu (c :: r2)

/-- Nonempty object list inside `[...]`. -/
def parseItemsGo : ℕ → List Char → Option (List Obj × List Char)
  | 0, _ => none
  | fu + 1, l =>
    match parseObj fu l with
    | none => none
    | some (o, r1) =>
      match skipSp r1 with
      | [] => none
      | c :: r2 =>
        if c = ',' then
          match parseItemsGo fu (skipSp r2) with
          | some (rest, r3) => some (o :: rest, r3)
          | none => none
        else if c = ']' then some ([o], r2)
        else none

/-- JSON array of flat objects. -/
def parseArr (fu : ℕ) (l : List Char) : Option (List Obj × List Char) :=
  match chkLit '[' l with
  | none => none
  | some r =>
    match skipSp r with
    | [] => none
    | c :: r2 => if c = ']' then some ([], r2) else parseItemsGo fu (c :: r2)

/-- An event field value: an item array or a primitive. -/
def parseFieldVal (fu : ℕ) (l : List Char) : Option (JField × List Char) :=
  match l with
  | c :: _ =>
    if c = '[' then (parseArr fu l).map (fun p => (.arr p.1, p.2))
    else (parsePrim l).map (fun p => (.sc p.1, p.2))
  | [] => none

/-- Nonempty field list of an event object. -/
def parseEvFields : ℕ → List Char → Option (Event × List Char)
  | 0, _ => none
  | fu + 1, l =>
    match parseStr l with
    | none => none
    | some (k, r1) =>
      match chkLit ':' (skipSp r1) with
      | none => none
      | some r2 =>
        match parseFieldVal fu (skipSp r2) with
        | none => none
        | some (v, r3) =>
          match skipSp r3 with
          | [] => none
          | c :: r5 =>
            if c = ',' then
              match parseEvFields fu (skipSp r5) with
              | some (rest, r6) => some ((k, v) :: rest, r6)
              | none => none
            else if c = rbr then some ([(k, v)], r5)
            else none

/-- Top-level event object. -/
def parseEvent (fu : ℕ) (l : List Char) : Option (Event × List Char) :=
  match chkLit lbr l with
  | none => none
  | some r =>
    match skipSp r with
    | [] => none
    | c :: r2 => if c = rbr then some ([], r2) else parseEvFields fu (c :: r2)

/-- `json.loads(line)` on one stripped line: the parse must consume the
whole input. -/
def parseLine (l : List Char) : Option Event :=
  match parseEvent (l.length + 1) l with
  | some (e, rest) => if rest = [] then some e else none
  | none => none

/-! ### `generate_sample_batch` output format and `FileBasedEventStream` -/

/-- The file `generate_sample_batch` writes:
`f.write(json.dumps(event) + '\n')` for each event. -/
def writeBatch (evs : List Event) : List Char :=
  (evs.map fun e => encEvent e ++ ['\n']).flatten

/-- Python whitespace as removed by `str.strip()`. -/
def isSpaceCh (c : Char) : Bool := c = ' ' ∨ c = '\n' ∨ c = '\t' ∨ c = '\r'

/-- `line.strip()`. -/
def strip (l : List Char) : List Char :=
  ((l.dropWhile isSpaceCh).reverse.dropWhile isSpaceCh).reverse

/-- Raw newline split (a trailing chunk follows a final newline). -/
def splitNl : List Char → List (List Char)
  | [] => [[]]
  | c :: r =>
    if c = '\n' then [] :: splitNl r
    else
      match splitNl r with
      | [] => [[c]]
      | l :: ls => (c :: l) :: ls

/-- The lines Python file iteration yields (without terminators; the
read loops `strip` each line anyway, so dropping the terminator here is
observationally identical): a trailing newline yields no extra line. -/
def linesOf (content : List Char) : List (List Char) :=
  let ls := splitNl content
  if ls.getLast? = some [] then ls.dropLast else ls

/-- State of a `FileBasedEventStream`: whether `__enter__` ran, the
unread lines, and `line_number`. -/
structure StreamState where
  opened : Bool
  pending : List (List Char)
  lineNumber : ℕ
deriving Repr

/-- `FileBasedEventStream` entered via the context manager on a file
with the given content. -/
def openStream (content : List Char) : StreamState :=
  ⟨true, linesOf content, 0⟩

/-- The `for _ in range(batch_size)` loop of `read_batch`: one line per
iteration, appended when it parses, a warning otherwise
(`line_number` is incremented only on success, as in the source). -/
def readBatchGo : ℕ → List (List Char) → List Event → ℕ →
    List Event × List (List Char) × ℕ
  | 0, ls, acc, ln => (acc, ls, ln)
  | _ + 1, [], acc, ln => (acc, [], ln)
  | n + 1, l :: ls, acc, ln =>
    match parseLine (strip l) with
    | some e => readBatchGo n ls (acc ++ [e]) (ln + 1)
    | none => readBatchGo n ls acc ln

/-- `FileBasedEventStream.read_batch`: raises `ValueError` when the
stream was not opened. -/
def read_batch (st : StreamState) (batch_size : ℕ) :
    Except String (List Event × StreamState) :=
  if st.opened then
    let r := readBatchGo batch_size st.pending [] st.lineNumber
    .ok (r.1, ⟨true, r.2.1, r.2.2⟩)
  else .error "Stream not opened"

/-- The `for line in self.file_handle` loop of `read_all`. -/
def readAllGo : List (List Char) → List Event → List Event
  | [], acc => acc
  | l :: ls, acc =>
    match parseLine (strip l) with
    | some e => readAllGo ls (acc ++ [e])
    | none => readAllGo ls acc

/-- `FileBasedEventStream.read_all`. -/
def read_all (st : StreamState) : Except String (List Event) :=
  if st.opened then .ok (readAllGo st.pending []) else .error "Stream not opened"

/-! ### The ingestion pipeline (modelled from the spec)

`consumer.py` is an unimplemented skeleton, so the pipeline below is
built from the design document alone. -/

/-- Modelled from the spec: the rejection taxonomy of the Validator
(`malformed_input` arises at the parse step, before an `Event` exists). -/
inductive RejectionReason where
  | missing_field
  | unknown_event_type
  | invalid_value
  | unparseable_timestamp
deriving DecidableEq, Repr

/-- String field read. -/
def strAt (e : Event) (k : String) : Option String :=
  match getField e k with
  | some (.sc (.s v)) => some v
  | _ => none

/-- Integer field read (a numeric primitive with no decimal part). -/
def intAt (e : Event) (k : String) : Option ℤ :=
  match getField e k with
  | some (.sc (.n m 0)) => some m
  | _ => none

/-- Whether a flat object carries a well-formed line item: `item_id`,
`item_name`, `category` present, `price ≥ 0`, integer `quantity ≥ 1`. -/
def itemOk (o : Obj) : Bool :=
  (alookup o "item_id").isSome && (alookup o "item_name").isSome &&
  (alookup o "category").isSome &&
  (match alookup o "price" with
   | some (.n m _) => 0 ≤ m
   | _ => false) &&
  (match alookup o "quantity" with
   | some (.n m 0) => 1 ≤ m
   | _ => false)

/-- Presence of every field in the list. -/
def hasAll (e : Event) (ks : List String) : Bool :=
  ks.all fun k => (getField e k).isSome

/-- Modelled from the spec: Validator type-specific checks (required
fields present, numeric fields in range, `payment_method` in the closed
set) for one known event type. -/
def checkTyped (e : Event) (ty : String) : Option RejectionReason :=
  if ty = "table_seated" then
    if hasAll e ["restaurant_id", "table_id", "party_size", "server_id"] then
      match intAt e "party_size" with
      | some m => if 1 ≤ m then none else some .invalid_value
      | none => some .invalid_value
    else some .missing_field
  else if ty = "order_placed" then
    if hasAll e ["order_id", "table_id", "items", "subtotal"] then
      match getField e "items" with
      | some (.arr its) => if its.all itemOk then none else some .invalid_value
      | _ => some .invalid_value
    else some .missing_field
  else if ty = "order_completed" then
    if hasAll e ["order_id", "table_id", "kitchen_time_minutes"] then
      match intAt e "kitchen_time_minutes" with
      | some m => if 0 ≤ m then none else some .invalid_value
      | none => some .invalid_value
    else some .missing_field
  else if ty = "payment" then
    if hasAll e ["order_id", "table_id", "subtotal", "tax", "tip",
                 "total_amount", "payment_method"] then
      match strAt e "payment_method" with
      | some pm =>
        if pm ∈ ["credit_card", "debit_card", "cash", "mobile_payment"] then
          none
        else some .invalid_value
      | none => some .invalid_value
    else some .missing_field
  else some .unknown_event_type

/-- Modelled from the spec: `validate(raw)` of §4.1, checks in order —
`event_id`/`event_type`/`timestamp` present, known variant,
type-specific fields and ranges, timestamp parses.  `none` means the
event is accepted. -/
def validate (e : Event) : Option RejectionReason :=
  if (strAt e "event_id").isSome && (getField e "event_type").isSome &&
     (getField e "timestamp").isSome then
    match strAt e "event_type" with
    | some ty =>
      match checkTyped e ty with
      | some r => some r
      | none =>
        match strAt e "timestamp" with
        | some ts => if isIso8601 ts then none else some .unparseable_timestamp
        | none => some .unparseable_timestamp
    | none => some .unknown_event_type
  else some .missing_field

/-- A normalized output row: destination table plus named columns. -/
structure Row where
  table : String
  cols : List (String × Prim)
deriving DecidableEq, Repr

/-- Primitive field read with a sink default (never reached on
validated events). -/
def primAt (e : Event) (k : String) : Prim :=
  match getField e k with
  | some (.sc p) => p
  | _ => .s ""

/-- Modelled from the spec: `transform(event)` of §4.3/§6 — one row for
simple event types, an order-header row plus one `order_items` row per
line item (tagged with its order and a stable `item_seq`) for
`order_placed`. -/
def transform (e : Event) : List Row :=
  match strAt e "event_type" with
  | some ty =>
    if ty = "table_seated" then
      [⟨"table_sessions",
        [("event_id", primAt e "event_id"),
         ("restaurant_id", primAt e "restaurant_id"),
         ("table_id", primAt e "table_id"),
         ("party_size", primAt e "party_size"),
         ("server_id", primAt e "server_id"),
         ("seated_at", primAt e "timestamp")]⟩]
    else if ty = "order_placed" then
      ⟨"orders",
        [("event_id", primAt e "event_id"),
         ("order_id", primAt e "order_id"),
         ("table_id", primAt e "table_id"),
         ("server_id", primAt e "server_id"),
         ("subtotal", primAt e "subtotal"),
         ("placed_at", primAt e "timestamp")]⟩ ::
      (match getField e "items" with
       | some (.arr its) =>
         its.enum.map fun p =>
           ⟨"order_items",
            [("order_id", primAt e "order_id"),
             ("item_seq", .n p.1 0),
             ("item_id", (alookup p.2 "item_id").getD (.s "")),
             ("item_name", (alookup p.2 "item_name").getD (.s "")),
             ("category", (alookup p.2 "category").getD (.s "")),
             ("price", (alookup p.2 "price").getD (.n 0 2)),
             ("quantity", (alookup p.2 "quantity").getD (.n 0 0))]⟩
       | _ => [])
    else if ty = "order_completed" then
      [⟨"order_completions",
        [("event_id", primAt e "event_id"),
         ("order_id", primAt e "order_id"),
         ("table_id", primAt e "table_id"),
         ("kitchen_time_minutes", primAt e "kitchen_time_minutes"),
         ("completed_at", primAt e "timestamp")]⟩]
    else if ty = "payment" then
      [⟨"payments",
        [("event_id", primAt e "event_id"),
         ("order_id", primAt e "order_id"),
         ("table_id", primAt e "table_id"),
         ("subtotal", primAt e "subtotal"),
         ("tax", primAt e "tax"),
         ("tip", primAt e "tip"),
         ("total_amount", primAt e "total_amount"),
         ("payment_method", primAt e "payment_method"),
         ("paid_at", primAt e "timestamp")]⟩]
    else []
  | none => []

/-- The Deduplicator's bounded map from `event_id` to first-seen time. -/
structure DedupSt where
  seen : List (String × ℤ)
deriving DecidableEq, Repr

/-- Modelled from the spec: `check(event_id, observed_at)` of §4.2 —
entries older than the window `w` are evicted lazily on access;
`FirstSeen` (`true`) registers the id, `Duplicate` (`false`) drops the
event. -/
def dedupCheck (w : ℤ) (id : String) (t : ℤ) (st : DedupSt) : Bool × DedupSt :=
  let alive := st.seen.filter fun p => t - p.2 ≤ w
  if alive.any fun p => p.1 = id then (false, ⟨alive⟩)
  else (true, ⟨(id, t) :: alive⟩)

/-- Modelled from the spec: one pipeline step — validation (a rejected
event never occupies a dedup slot), deduplication, transformation of
first-seen events. -/
def pipeStep (w : ℤ) (st : DedupSt) (e : Event) (t : ℤ) : DedupSt × List Row :=
  match validate e with
  | some _ => (st, [])
  | none =>
    match strAt e "event_id" with
    | some id =>
      let c := dedupCheck w id t st
      if c.1 then (c.2, transform e) else (c.2, [])
    | none => (st, [])

/-- Modelled from the spec: the Validator → Deduplicator → Transformer
chain folded over an arrival sequence of (event, observed-at) pairs. -/
def pipelineGo (w : ℤ) : List (Event × ℤ) → DedupSt → List Row
  | [], _ => []
  | (e, t) :: rest, st =>
    let r := pipeStep w st e t
    r.2 ++ pipelineGo w rest r.1

/-- Modelled from the spec: the pipeline run from an empty dedup state. -/
def pipelineRun (w : ℤ) (msgs : List (Event × ℤ)) : List Row :=
  pipelineGo w msgs ⟨[]⟩

/-! ## Lemmas: decimal rendering and ISO-8601 shape -/

theorem isDigitCh_dchar (n : ℕ) : isDigitCh (dchar n) = true := by
  unfold dchar
  have h : n % 10 < 10 := Nat.mod_lt _ (by norm_num)
  set k := n % 10 with hk
  interval_cases k <;> decide

theorem padNat_length (k n : ℕ) : (padNat k n).length = k := by
  induction k generalizing n with
  | zero => rfl
  | succ k ih => simp [padNat, ih]

theorem padNat_digits (k n : ℕ) : ∀ c ∈ padNat k n, isDigitCh c = true := by
  induction k generalizing n with
  | zero => simp [padNat]
  | succ k ih =>
    intro c hc
    simp only [padNat, List.mem_append, List.mem_singleton] at hc
    rcases hc with h | h
    · exact ih _ c h
    · subst h; exact isDigitCh_dchar n

theorem chkDigits_run : ∀ (u rest : List Char),
    (∀ c ∈ u, isDigitCh c = true) → chkDigits u.length (u ++ rest) = some rest
  | [], _, _ => rfl
  | c :: u, rest, hd => by
    simp only [List.cons_append, List.length_cons, chkDigits]
    rw [hd c (List.mem_cons_self c u), if_pos rfl]
    exact chkDigits_run u rest (fun x hx => hd x (List.mem_cons_of_mem _ hx))

theorem chkLit_cons (c : Char) (r : List Char) : chkLit c (c :: r) = some r := by
  simp [chkLit]

theorem chkDigits_padNat (k n : ℕ) (rest : List Char) :
    chkDigits k (padNat k n ++ rest) = some rest := by
  have h := chkDigits_run (padNat k n) rest (padNat_digits k n)
  rwa [padNat_length] at h

theorem data_mk (l : List Char) : (String.mk l).data = l := rfl

theorem optSomeBind {α β : Type} (a : α) (f : α → Option β) :
    (some a >>= f) = f a := rfl

theorem isoMain_isoCore (y mo d hr mi se : ℕ) (tail : List Char) :
    isoMain (isoCore y mo d hr mi se tail) = some tail := by
  simp only [isoMain, isoCore, chkDigits_padNat, chkLit_cons, optSomeBind]

theorem isoMain_isoformat (t : ℕ) :
    isoMain (isoformat t).data =
      some (if t % 1000000 = 0 then [] else '.' :: padNat 6 (t % 1000000)) := by
  rw [isoformat]
  rw [data_mk, isoMain_isoCore]

/-- Every string `isoformat` produces passes the ISO-8601 shape check. -/
theorem isIso8601_isoformat (t : ℕ) : isIso8601 (isoformat t) = true := by
  rw [isIso8601, isoMain_isoformat]
  by_cases h : t % 1000000 = 0
  · rw [if_pos h]
    rfl
  · rw [if_neg h]
    have hpad : chkDigits 6 (padNat 6 (t % 1000000)) = some [] := by
      have := chkDigits_padNat 6 (t % 1000000) []
      rwa [List.append_nil] at this
    simp [isoTailOk, chkLit_cons, hpad]

/-! ## Lemmas: money values -/

theorem primRat_asCents2 (q : ℚ) : primRat (asCents2 q) = some (round2 q) := by
  simp [primRat, asCents2, round2]
  norm_num

/-- `round(q, 2)` is idempotent. -/
theorem round2_round2 (q : ℚ) : round2 (round2 q) = round2 q := by
  unfold round2
  have h : ((round (q * 100) : ℤ) : ℚ) / 100 * 100 = ((round (q * 100) : ℤ) : ℚ) := by
    field_simp
  rw [h, round_intCast]

/-- An element produced by `List.getD` is in the list or is the default. -/
theorem getD_mem_or {α : Type} (l : List α) (n : ℕ) (d : α) :
    l.getD n d ∈ l ∨ l.getD n d = d := by
  induction l generalizing n with
  | nil => right; rfl
  | cons x xs ih =>
    cases n with
    | zero => left; simp
    | succ n =>
      rw [List.getD_cons_succ]
      rcases ih n with h | h
      · left; exact List.mem_cons_of_mem _ h
      · right; exact h

/-! ## Claim-level predicates over events -/

/-- Whether an optional field holds a string. -/
def isStrF : Option JField → Bool
  | some (.sc (.s _)) => true
  | _ => false

/-- The §3 completeness predicate of claim C4: mandatory `event_id`
(string), known `event_type`, ISO-8601 `timestamp`, and the type-specific
required fields with their range constraints (`checkTyped`). -/
def requiredFieldsOk (e : Event) : Bool :=
  isStrF (getField e "event_id") &&
  (match strAt e "event_type" with
   | some ty =>
     decide (ty ∈ ["table_seated", "order_placed", "order_completed",
                   "payment"]) &&
     (checkTyped e ty).isNone
   | none => false) &&
  (match strAt e "timestamp" with
   | some ts => isIso8601 ts
   | none => false)

/-- The payment value constraint of §3: `total_amount` is
`round(subtotal + tax + tip, 2)` of the event's own fields, and
`payment_method` lies in the closed set. -/
def paymentArith (e : Event) : Bool :=
  (match numAt e "subtotal", numAt e "tax", numAt e "tip",
         numAt e "total_amount" with
   | some s, some x, some p, some t => decide (t = round2 (s + x + p))
   | _, _, _, _ => false) &&
  (match strAt e "payment_method" with
   | some pm => decide (pm ∈ ["credit_card", "debit_card", "cash",
                              "mobile_payment"])
   | none => false)

/-- Sum of `price * quantity` over the `items` array carried in an
event, read back from the event itself. -/
def itemsTotalOf (e : Event) : ℚ :=
  match getField e "items" with
  | some (.arr its) =>
    (its.map fun o =>
      (numAtO o "price").getD 0 * (numAtO o "quantity").getD 0).sum
  | _ => 0

/-- `choiceL` on a nonempty list returns one of its elements. -/
theorem choiceL_mem {α : Type} (l : List α) (d : α) (r : ℕ) (h : l ≠ []) :
    choiceL l d r ∈ l := by
  unfold choiceL
  have hlen : 0 < l.length := List.length_pos_of_ne_nil h
  have hlt : r % l.length < l.length := Nat.mod_lt _ hlen
  rw [List.getD_eq_getElem l d hlt]
  exact List.getElem_mem _

end RestroModel

namespace RestroModel

/-! ## Lemmas: generated sessions -/

theorem sessParty_ge (g : Rand) : 2 ≤ sessParty g := by
  have h : sessParty g ∈ [2, 3, 4, 5, 6] :=
    choiceL_mem [2, 3, 4, 5, 6] 2 g.partyR (by decide)
  simp at h
  rcases h with h | h | h | h | h <;> omega

theorem itemCat_mem (g : Rand) (k : ℕ) : itemCat g k ∈ menuKeys :=
  choiceL_mem menuKeys "" (g.catR k) (by decide)

theorem menu_entries : ∀ c ∈ menuKeys,
    (alookup MENU_ITEMS c).getD [] ≠ [] ∧
    ∀ p ∈ (alookup MENU_ITEMS c).getD [], 0 ≤ p.2 := by decide

theorem itemPick_price_nonneg (g : Rand) (k : ℕ) : 0 ≤ (itemPick g k).2 := by
  have hm := menu_entries (itemCat g k) (itemCat_mem g k)
  have hmem : itemPick g k ∈ (alookup MENU_ITEMS (itemCat g k)).getD [] :=
    choiceL_mem _ ("", 0) (g.itemR k) hm.1
  exact hm.2 _ hmem

theorem itemQty_ge (g : Rand) (k : ℕ) : 1 ≤ itemQty g k := by
  have h : itemQty g k ∈ [1, 2] := choiceL_mem [1, 2] 1 (g.qtyR k) (by decide)
  simp at h
  rcases h with h | h <;> omega

theorem itemOk_itemObj (g : Rand) (k : ℕ) : itemOk (itemObj g k) = true := by
  simp [itemOk, itemObj, alookup, itemPick_price_nonneg g k]
  exact_mod_cast itemQty_ge g k

end RestroModel

namespace RestroModel

theorem req_seated (g : Rand) (base : ℕ) :
    requiredFieldsOk (seatedEvent g base) = true := by
  have hp := sessParty_ge g
  simp [requiredFieldsOk, seatedEvent, getField, alookup, strAt, isStrF,
    checkTyped, hasAll, intAt, isIso8601_isoformat]
  omega

theorem req_completed (g : Rand) (base : ℕ) :
    requiredFieldsOk (completedEvent g base) = true := by
  simp [requiredFieldsOk, completedEvent, getField, alookup, strAt, isStrF,
    checkTyped, hasAll, intAt, isIso8601_isoformat]

theorem req_order (g : Rand) (base : ℕ) :
    requiredFieldsOk (orderEvent g base) = true := by
  simp [requiredFieldsOk, orderEvent, getField, alookup, strAt, isStrF,
    checkTyped, hasAll, intAt, isIso8601_isoformat, itemOk_itemObj,
    List.all_eq_true]

theorem req_payment (g : Rand) (base : ℕ) :
    requiredFieldsOk (paymentEvent g base) = true := by
  have h : sessPayMethod g ∈ ["credit_card", "debit_card", "cash",
      "mobile_payment"] := choiceL_mem _ "credit_card" g.payMethodR (by decide)
  simp [requiredFieldsOk, paymentEvent, getField, alookup, strAt, isStrF,
    checkTyped, hasAll, intAt, isIso8601_isoformat]
  simp at h
  rcases h with h | h | h | h <;> simp [h]

end RestroModel

namespace RestroModel

theorem round2_sessSubR (g : Rand) : round2 (sessSubR g) = sessSubR g := by
  rw [sessSubR]; exact round2_round2 _

theorem round2_sessTax (g : Rand) : round2 (sessTax g) = sessTax g := by
  rw [sessTax]; exact round2_round2 _

theorem round2_sessTip (g : Rand) : round2 (sessTip g) = sessTip g := by
  rw [sessTip]; exact round2_round2 _

theorem round2_sessTotal (g : Rand) : round2 (sessTotal g) = sessTotal g := by
  rw [sessTotal]; exact round2_round2 _

theorem pay_arith (g : Rand) (base : ℕ) :
    paymentArith (paymentEvent g base) = true := by
  have hm : sessPayMethod g ∈ ["credit_card", "debit_card", "cash",
      "mobile_payment"] := choiceL_mem _ "credit_card" g.payMethodR (by decide)
  simp [paymentArith, paymentEvent, numAt, getField, alookup, strAt,
    primRat_asCents2, round2_sessSubR, round2_sessTax, round2_sessTip,
    round2_sessTotal]
  constructor
  · rw [sessTotal]
  · simpa using hm

theorem itemsTotalOf_orderEvent (g : Rand) (base : ℕ) :
    itemsTotalOf (orderEvent g base) = subtotalQ g (numItems g) := by
  simp [itemsTotalOf, orderEvent, getField, alookup]
  rw [subtotalQ]
  congr 1
  apply List.map_congr_left
  intro k _
  simp [Function.comp, numAtO, itemObj, alookup, primRat, itemPriceQ]
  left
  norm_num

end RestroModel

namespace RestroModel

/-- C4: every event emitted by `generate_table_session` carries an
`event_id` string, one of the four known `event_type`s, an ISO-8601
`timestamp` string, and all the type-specific required fields of §3 —
with `party_size` a positive integer, every order item carrying
`item_id`, `item_name`, `category`, `price ≥ 0` and `quantity ≥ 1`, and
`kitchen_time_minutes ≥ 0`. -/
theorem c4_required_fields (g : Rand) (base : ℕ) :
    ∀ e ∈ (generate_table_session g base).events,
      requiredFieldsOk e = true := by
  intro e he
  have hs := req_seated g base
  have ho := req_order g base
  have hc := req_completed g base
  have hpy := req_payment g base
  unfold generate_table_session at he
  by_cases hp : g.placeOrder
  · by_cases hq : g.doPayment
    · simp [hp, hq] at he
      rcases he with rfl | rfl | rfl | rfl <;> assumption
    · simp [hp, hq] at he
      rcases he with rfl | rfl | rfl <;> assumption
  · simp [hp] at he
    subst he
    assumption

/-- C5: every `payment` event the generator emits satisfies
`total_amount = round(subtotal + tax + tip, 2)` on its own fields and
carries a `payment_method` from the closed four-element set. -/
theorem c5_payment_arith (g : Rand) (base : ℕ) :
    ∀ e ∈ (generate_table_session g base).events,
      strAt e "event_type" = some "payment" → paymentArith e = true := by
  intro e he hty
  unfold generate_table_session at he
  by_cases hp : g.placeOrder
  · by_cases hq : g.doPayment
    · simp [hp, hq] at he
      rcases he with rfl | rfl | rfl | rfl
      · simp [seatedEvent, strAt, getField, alookup] at hty
      · simp [orderEvent, strAt, getField, alookup] at hty
      · simp [completedEvent, strAt, getField, alookup] at hty
      · exact pay_arith g base
    · simp [hp, hq] at he
      rcases he with rfl | rfl | rfl
      · simp [seatedEvent, strAt, getField, alookup] at hty
      · simp [orderEvent, strAt, getField, alookup] at hty
      · simp [completedEvent, strAt, getField, alookup] at hty
  · simp [hp] at he
    subst he
    simp [seatedEvent, strAt, getField, alookup] at hty

end RestroModel

namespace RestroModel

/-- C3: a generated session emits `table_seated`, then (optionally)
`order_placed`, `order_completed` and (optionally) `payment` — a later
stage only with all earlier order stages — with timestamps drawn from a
non-decreasing timeline, every event carrying the session's `table_id`,
and every order-stage event carrying the session's `order_id`. -/
theorem c3_lifecycle (g : Rand) (base : ℕ) :
    ((generate_table_session g base).events.map
        (fun e => strAt e "event_type") = [some "table_seated"] ∨
     (generate_table_session g base).events.map
        (fun e => strAt e "event_type") =
          [some "table_seated", some "order_placed",
           some "order_completed"] ∨
     (generate_table_session g base).events.map
        (fun e => strAt e "event_type") =
          [some "table_seated", some "order_placed", some "order_completed",
           some "payment"]) ∧
    (∃ ms : List ℕ,
       (generate_table_session g base).events.map
          (fun e => strAt e "timestamp") =
         ms.map (fun m => some (isoformat m)) ∧ ms.Chain' (· ≤ ·)) ∧
    (∀ e ∈ (generate_table_session g base).events,
       strAt e "table_id" = some (sessTableId g)) ∧
    (∀ e ∈ (generate_table_session g base).events,
       (strAt e "event_type" = some "order_placed" ∨
        strAt e "event_type" = some "order_completed" ∨
        strAt e "event_type" = some "payment") →
       strAt e "order_id" = some (sessOrderId g)) := by
  unfold generate_table_session
  by_cases hp : g.placeOrder
  · by_cases hq : g.doPayment
    · simp only [hp, hq, if_true]
      refine ⟨Or.inr (Or.inr ?_), ⟨[base, orderTms g base, compTms g base,
        payTms g base], ?_, ?_⟩, ?_, ?_⟩
      · simp [seatedEvent, orderEvent, completedEvent, paymentEvent,
          strAt, getField, alookup]
      · simp [seatedEvent, orderEvent, completedEvent, paymentEvent,
          strAt, getField, alookup]
      · simp [compTms, payTms, orderTms]
      · intro e he
        simp at he
        rcases he with rfl | rfl | rfl | rfl <;>
          simp [seatedEvent, orderEvent, completedEvent, paymentEvent,
            strAt, getField, alookup]
      · intro e he hty
        simp at he
        rcases he with rfl | rfl | rfl | rfl <;>
          simp_all [seatedEvent, orderEvent, completedEvent, paymentEvent,
            strAt, getField, alookup]
    · simp only [hp, hq, if_true, if_false]
      refine ⟨Or.inr (Or.inl ?_), ⟨[base, orderTms g base, compTms g base],
        ?_, ?_⟩, ?_, ?_⟩
      · simp [seatedEvent, orderEvent, completedEvent,
          strAt, getField, alookup]
      · simp [seatedEvent, orderEvent, completedEvent,
          strAt, getField, alookup]
      · simp [compTms, orderTms]
      · intro e he
        simp at he
        rcases he with rfl | rfl | rfl <;>
          simp [seatedEvent, orderEvent, completedEvent,
            strAt, getField, alookup]
      · intro e he hty
        simp at he
        rcases he with rfl | rfl | rfl <;>
          simp_all [seatedEvent, orderEvent, completedEvent,
            strAt, getField, alookup]
  · simp only [hp, if_false]
    refine ⟨Or.inl ?_, ⟨[base], ?_, ?_⟩, ?_, ?_⟩
    · simp [seatedEvent, strAt, getField, alookup]
    · simp [seatedEvent, strAt, getField, alookup]
    · simp
    · intro e he
      simp at he
      subst he
      simp [seatedEvent, strAt, getField, alookup]
    · intro e he hty
      simp at he
      subst he
      simp [seatedEvent, strAt, getField, alookup] at hty

end RestroModel

namespace RestroModel

/-- C9: an `order_placed` event's `subtotal` equals the 2-decimal
rounding of the sum of `price × quantity` over its own items, and the
session's `payment` event (when present) carries exactly that subtotal
with `tax = round(subtotal * 0.09, 2)`. -/
theorem c9_subtotal_consistency (g : Rand) (base : ℕ) :
    (∀ e ∈ (generate_table_session g base).events,
       strAt e "event_type" = some "order_placed" →
       numAt e "subtotal" = some (round2 (itemsTotalOf e))) ∧
    (∀ e ∈ (generate_table_session g base).events,
     ∀ e2 ∈ (generate_table_session g base).events,
       strAt e "event_type" = some "order_placed" →
       strAt e2 "event_type" = some "payment" →
       numAt e2 "subtotal" = numAt e "subtotal" ∧
       numAt e2 "tax" =
         (numAt e "subtotal").map (fun s => round2 (s * 0.09))) := by
  have hsub : numAt (orderEvent g base) "subtotal" = some (sessSubR g) := by
    simp [orderEvent, numAt, getField, alookup, primRat_asCents2,
      round2_sessSubR]
  have hord : numAt (orderEvent g base) "subtotal" =
      some (round2 (itemsTotalOf (orderEvent g base))) := by
    rw [hsub, itemsTotalOf_orderEvent]
    rw [sessSubR]
  have hpaysub : numAt (paymentEvent g base) "subtotal" = some (sessSubR g) := by
    simp [paymentEvent, numAt, getField, alookup, primRat_asCents2,
      round2_sessSubR]
  have hpaytax : numAt (paymentEvent g base) "tax" = some (sessTax g) := by
    simp [paymentEvent, numAt, getField, alookup, primRat_asCents2,
      round2_sessTax]
  constructor
  · intro e he hty
    unfold generate_table_session at he
    by_cases hp : g.placeOrder
    · by_cases hq : g.doPayment
      · simp [hp, hq] at he
        rcases he with rfl | rfl | rfl | rfl
        · simp [seatedEvent, strAt, getField, alookup] at hty
        · exact hord
        · simp [completedEvent, strAt, getField, alookup] at hty
        · simp [paymentEvent, strAt, getField, alookup] at hty
      · simp [hp, hq] at he
        rcases he with rfl | rfl | rfl
        · simp [seatedEvent, strAt, getField, alookup] at hty
        · exact hord
        · simp [completedEvent, strAt, getField, alookup] at hty
    · simp [hp] at he
      subst he
      simp [seatedEvent, strAt, getField, alookup] at hty
  · intro e he e2 he2 hty hty2
    unfold generate_table_session at he he2
    by_cases hp : g.placeOrder
    · by_cases hq : g.doPayment
      · simp [hp, hq] at he he2
        have he' : e = orderEvent g base := by
          rcases he with rfl | rfl | rfl | rfl
          · simp [seatedEvent, strAt, getField, alookup] at hty
          · rfl
          · simp [completedEvent, strAt, getField, alookup] at hty
          · simp [paymentEvent, strAt, getField, alookup] at hty
        have he2' : e2 = paymentEvent g base := by
          rcases he2 with rfl | rfl | rfl | rfl
          · simp [seatedEvent, strAt, getField, alookup] at hty2
          · simp [orderEvent, strAt, getField, alookup] at hty2
          · simp [completedEvent, strAt, getField, alookup] at hty2
          · rfl
        subst he'
        subst he2'
        refine ⟨by rw [hpaysub, hsub], ?_⟩
        rw [hpaytax, hsub]
        simp [sessTax]
      · simp [hp, hq] at he2
        have : strAt e2 "event_type" ≠ some "payment" := by
          rcases he2 with rfl | rfl | rfl <;>
            simp [seatedEvent, orderEvent, completedEvent,
              strAt, getField, alookup]
        exact absurd hty2 this
    · simp [hp] at he2
      subst he2
      simp [seatedEvent, strAt, getField, alookup] at hty2

end RestroModel

namespace RestroModel

/-- A concrete oracle used to instantiate hypothesis-bearing theorems. -/
def gW : Rand where
  restR := 0
  tableR := 6
  serverR := 23
  orderUuid := "abc12345"
  partyR := 2
  uuid := fun i => String.mk (natDigs (1000 + i))
  placeOrder := true
  orderDelayR := 3
  numItemsR := 0
  catR := fun k => k
  itemR := fun k => k + 1
  qtyR := fun k => k
  hashF := fun s => s.length * 9973
  kitchenR := 7
  doPayment := true
  payDelayR := 4
  tipR := 1
  payMethodR := 2
  dupCoin := fun i => i = 1
  lateCoin := fun i => i = 0
  shuffleCoin := false
  shuffleStartR := 0
  shuffleLenR := 0
  fyR := fun _ => 0

theorem memSeated : seatedEvent gW 0 ∈ (generate_table_session gW 0).events :=
  show seatedEvent gW 0 ∈
      [seatedEvent gW 0, orderEvent gW 0, completedEvent gW 0,
       paymentEvent gW 0] from List.mem_cons_self _ _

theorem memOrder : orderEvent gW 0 ∈ (generate_table_session gW 0).events :=
  show orderEvent gW 0 ∈
      [seatedEvent gW 0, orderEvent gW 0, completedEvent gW 0,
       paymentEvent gW 0] from
    List.mem_cons_of_mem _ (List.mem_cons_self _ _)

theorem memPayment : paymentEvent gW 0 ∈ (generate_table_session gW 0).events :=
  show paymentEvent gW 0 ∈
      [seatedEvent gW 0, orderEvent gW 0, completedEvent gW 0,
       paymentEvent gW 0] from
    List.mem_cons_of_mem _ (List.mem_cons_of_mem _
      (List.mem_cons_of_mem _ (List.mem_cons_self _ _)))

theorem c4w : requiredFieldsOk (seatedEvent gW 0) = true :=
  c4_required_fields gW 0 (seatedEvent gW 0) memSeated

theorem c3w : strAt (seatedEvent gW 0) "table_id" = some (sessTableId gW) :=
  (c3_lifecycle gW 0).2.2.1 (seatedEvent gW 0) memSeated

theorem c5w : paymentArith (paymentEvent gW 0) = true :=
  c5_payment_arith gW 0 (paymentEvent gW 0) memPayment rfl

theorem c9w : numAt (paymentEvent gW 0) "subtotal" =
    numAt (orderEvent gW 0) "subtotal" :=
  ((c9_subtotal_consistency gW 0).2 (orderEvent gW 0) memOrder
    (paymentEvent gW 0) memPayment rfl rfl).1

end RestroModel

namespace RestroModel

/-! ## Lemmas: `introduce_issues` -/

theorem setField_lookup_self {α : Type} (l : List (String × α)) (k : String)
    (v : α) (h : alookup l k = some v) : setField l k v = l := by
  induction l with
  | nil => simp [alookup] at h
  | cons p r ih =>
    rw [alookup] at h
    rw [setField]
    by_cases hk : p.1 = k
    · rw [if_pos hk] at h ⊢
      injection h with h
      rw [← hk, ← h]
    · rw [if_neg hk] at h ⊢
      rw [ih h]

/-- The duplicate `introduce_issues` appends is the original event. -/
theorem dupCopy_eq (e : Event) : dupCopy e = e := by
  unfold dupCopy
  cases h : getField e "event_id" with
  | none => rfl
  | some v => exact setField_lookup_self e "event_id" v h

theorem mem_expandOne {g : Rand} {i : ℕ} {e x : Event}
    (h : x ∈ expandOne g i e) : x = e := by
  simp only [expandOne, List.mem_cons, List.mem_append] at h
  rcases h with rfl | h | h
  · rfl
  · rcases (by split at h <;> simp_all : x = dupCopy e) with rfl
    exact dupCopy_eq e
  · split at h <;> simp_all

theorem self_mem_expandOne (g : Rand) (i : ℕ) (e : Event) :
    e ∈ expandOne g i e := by
  simp [expandOne]

theorem mem_preShuffle_of_mem {g : Rand} {evs : List Event} {e : Event}
    (h : e ∈ evs) : e ∈ preShuffle g evs := by
  unfold preShuffle
  rw [List.mem_flatten]
  obtain ⟨i, hlt, hi⟩ := List.mem_iff_getElem.mp h
  refine ⟨expandOne g i e, ?_, self_mem_expandOne g i e⟩
  rw [List.mem_map]
  refine ⟨(i, e), ?_, rfl⟩
  rw [List.mem_enum_iff_getElem?]
  simp [List.getElem?_eq_getElem hlt, hi]

theorem mem_of_mem_preShuffle {g : Rand} {evs : List Event} {x : Event}
    (h : x ∈ preShuffle g evs) : x ∈ evs := by
  unfold preShuffle at h
  rw [List.mem_flatten] at h
  obtain ⟨l, hl, hx⟩ := h
  rw [List.mem_map] at hl
  obtain ⟨p, hp, rfl⟩ := hl
  rcases mem_expandOne hx with rfl
  rw [List.mem_enum_iff_getElem?] at hp
  exact List.getElem?_mem hp

theorem flatten_length_ge {α : Type} (L : List (List α))
    (h : ∀ l ∈ L, 1 ≤ l.length) : L.length ≤ L.flatten.length := by
  induction L with
  | nil => simp
  | cons l L ih =>
    simp only [List.length_cons, List.flatten_cons, List.length_append]
    have h1 := h l (List.mem_cons_self l L)
    have h2 := ih (fun x hx => h x (List.mem_cons_of_mem _ hx))
    omega

theorem length_preShuffle (g : Rand) (evs : List Event) :
    evs.length ≤ (preShuffle g evs).length := by
  unfold preShuffle
  have h := flatten_length_ge (evs.enum.map fun p => expandOne g p.1 p.2) ?_
  · simpa using h
  · intro l hl
    rw [List.mem_map] at hl
    obtain ⟨p, _, rfl⟩ := hl
    simp [expandOne]

end RestroModel

namespace RestroModel

theorem cons_set_perm {α : Type} :
    ∀ (t : List α) (k : ℕ) (x b : α), t[k]? = some b →
      (b :: t.set k x).Perm (x :: t)
  | y :: t, 0, x, b, h => by
    simp only [List.getElem?_cons_zero, Option.some.injEq] at h
    subst h
    simpa [List.set] using List.Perm.swap x y t
  | y :: t, k + 1, x, b, h => by
    simp only [List.getElem?_cons_succ] at h
    have ih := cons_set_perm t k x b h
    have h1 : b :: (y :: t).set (k + 1) x = b :: y :: t.set k x := by
      simp [List.set]
    rw [h1]
    have h2 : (b :: y :: t.set k x).Perm (y :: b :: t.set k x) :=
      List.Perm.swap y b _
    have h3 : (y :: b :: t.set k x).Perm (y :: x :: t) := ih.cons y
    have h4 : (y :: x :: t).Perm (x :: y :: t) := List.Perm.swap x y t
    exact (h2.trans h3).trans h4
  | [], _, _, _, h => by simp at h

end RestroModel

namespace RestroModel

theorem set_set_perm {α : Type} :
    ∀ (l : List α) (i j : ℕ) (a b : α), l[i]? = some a → l[j]? = some b →
      ((l.set i b).set j a).Perm l
  | [], _, _, _, _, hi, _ => by simp at hi
  | y :: t, 0, 0, a, b, hi, hj => by
    simp only [List.getElem?_cons_zero, Option.some.injEq] at hi hj
    subst hi
    rw [List.set, List.set]
  | y :: t, 0, j + 1, a, b, hi, hj => by
    simp only [List.getElem?_cons_zero, Option.some.injEq] at hi
    simp only [List.getElem?_cons_succ] at hj
    subst hi
    rw [List.set, List.set]
    exact cons_set_perm t j y b hj
  | y :: t, i + 1, 0, a, b, hi, hj => by
    simp only [List.getElem?_cons_zero, Option.some.injEq] at hj
    simp only [List.getElem?_cons_succ] at hi
    subst hj
    rw [List.set, List.set]
    exact cons_set_perm t i y a hi
  | y :: t, i + 1, j + 1, a, b, hi, hj => by
    simp only [List.getElem?_cons_succ] at hi hj
    rw [List.set, List.set]
    exact (set_set_perm t i j a b hi hj).cons y

/-- A Python swap keeps the list a permutation of itself. -/
theorem swapL_perm {α : Type} (l : List α) (i j : ℕ) :
    (swapL l i j).Perm l := by
  unfold swapL
  cases hi : l[i]? with
  | none => exact List.Perm.refl l
  | some a =>
    cases hj : l[j]? with
    | none => exact List.Perm.refl l
    | some b => exact set_set_perm l i j a b hi hj

/-- Each Fisher-Yates pass keeps the list a permutation of itself. -/
theorem shuffleGo_perm {α : Type} (r : ℕ → ℕ) :
    ∀ (n : ℕ) (l : List α), (shuffleGo r n l).Perm l
  | 0, l => List.Perm.refl l
  | i + 1, l => by
    rw [shuffleGo]
    exact (shuffleGo_perm r i _).trans (swapL_perm l (i + 1) _)

/-- `random.shuffle` produces a permutation of its input. -/
theorem shuffleL_perm {α : Type} (r : ℕ → ℕ) (l : List α) :
    (shuffleL r l).Perm l := shuffleGo_perm r (l.length - 1) l

/-- `introduce_issues` output is a permutation of the pre-shuffle list. -/
theorem introduce_issues_perm (g : Rand) (evs : List Event) :
    (introduce_issues g evs).Perm (preShuffle g evs) := by
  unfold introduce_issues
  dsimp only
  set m := preShuffle g evs with hm
  by_cases hc : g.shuffleCoin ∧ 2 < m.length
  · rw [if_pos hc]
    set s := randintN 0 (m.length - 2) g.shuffleStartR with hs
    set e := min (s + randintN 2 5 g.shuffleLenR) m.length with he
    have hse : s ≤ e := by
      rw [he]
      refine le_min (Nat.le_add_right s _) ?_
      rw [hs, randintN]
      have h1 : g.shuffleStartR % (m.length - 2 + 1 - 0) ≤ m.length - 2 := by
        have := Nat.mod_lt g.shuffleStartR
          (y := m.length - 2 + 1 - 0) (by omega)
        omega
      omega
    have hsplit : m = m.take s ++ ((m.drop s).take (e - s) ++
        (m.drop s).drop (e - s)) := by
      rw [List.take_append_drop, List.take_append_drop]
    have hdrop : (m.drop s).drop (e - s) = m.drop e := by
      rw [List.drop_drop]
      congr 1
      omega
    have hperm : (shuffleL g.fyR ((m.drop s).take (e - s))).Perm
        ((m.drop s).take (e - s)) := shuffleL_perm _ _
    conv_rhs => rw [hsplit, hdrop]
    rw [List.append_assoc]
    exact ((hperm.append_right (m.drop e)).append_left (m.take s))
  · rw [if_neg hc]

end RestroModel

namespace RestroModel

/-- C8: `introduce_issues` loses no event and invents none — the output
is a permutation of the pre-shuffle expansion (the out-of-order shuffle
only permutes a contiguous slice), every input event occurs in the
output, every output event is a copy of an input event, and the output
is at least as long as the input. -/
theorem c8_no_loss (g : Rand) (evs : List Event) :
    (introduce_issues g evs).Perm (preShuffle g evs) ∧
    (∀ e ∈ evs, e ∈ introduce_issues g evs) ∧
    (∀ e ∈ introduce_issues g evs, e ∈ evs) ∧
    evs.length ≤ (introduce_issues g evs).length := by
  have hperm := introduce_issues_perm g evs
  refine ⟨hperm, ?_, ?_, ?_⟩
  · intro e he
    exact hperm.mem_iff.mpr (mem_preShuffle_of_mem he)
  · intro e he
    exact mem_of_mem_preShuffle (hperm.mem_iff.mp he)
  · rw [hperm.length_eq]
    exact length_preShuffle g evs

/-- C2: when the input stream carries one payload per `event_id` (as
uuid4-generated session events do), any two `introduce_issues` outputs
with the same `event_id` agree on every field, and the duplicate copy the
5% branch builds keeps the original's `event_id` — it is the original
event unchanged. -/
theorem c2_identical_duplicates (g : Rand) (evs : List Event)
    (h : ∀ a ∈ evs, ∀ b ∈ evs,
        getField a "event_id" = getField b "event_id" → a = b) :
    (∀ a ∈ introduce_issues g evs, ∀ b ∈ introduce_issues g evs,
        getField a "event_id" = getField b "event_id" → a = b) ∧
    (∀ e : Event, dupCopy e = e) := by
  have hperm := introduce_issues_perm g evs
  refine ⟨?_, dupCopy_eq⟩
  intro a ha b hb hid
  exact h a (mem_of_mem_preShuffle (hperm.mem_iff.mp ha))
    b (mem_of_mem_preShuffle (hperm.mem_iff.mp hb)) hid

/-- A concrete minimal event used for the disturbance-pass instances. -/
def eSimple : Event :=
  [("event_id", .sc (.s "e1")),
   ("event_type", .sc (.s "table_seated")),
   ("timestamp", .sc (.s "2026-01-01T12:00:00")),
   ("restaurant_id", .sc (.s "rest_001")),
   ("table_id", .sc (.s "table_01")),
   ("party_size", .sc (.n 2 0)),
   ("server_id", .sc (.s "server_100"))]

/-- Oracle whose 3% late-arrival coin always hits and whose other
disturbance coins never do. -/
def gLate : Rand :=
  { gW with dupCoin := fun _ => false, lateCoin := fun _ => true,
            shuffleCoin := false }

/-- C6 (divergence witness): with the late-arrival branch taken on a
single event, `introduce_issues` emits the copy immediately after the
original — identical in every field (timestamp unchanged) and with no
delivery delay whatever, not a minutes-to-hours one. -/
theorem c6_late_copy_no_delay :
    introduce_issues gLate [eSimple] = [eSimple, eSimple] := by decide

theorem c2w : dupCopy eSimple = eSimple :=
  (c2_identical_duplicates gLate [eSimple] (by decide)).2 eSimple

theorem c8w : eSimple ∈ introduce_issues gLate [eSimple] :=
  (c8_no_loss gLate [eSimple]).2.1 eSimple (by decide)

end RestroModel

namespace RestroModel

/-! ## Lemmas: the spec-modelled pipeline -/

theorem pipelineGo_dup (w : ℤ) (e : Event) (id : String) (t1 : ℤ)
    (hv : validate e = none) (hid : strAt e "event_id" = some id) :
    ∀ ts : List ℤ, (∀ t ∈ ts, t - t1 ≤ w) →
      pipelineGo w (ts.map fun t => (e, t)) ⟨[(id, t1)]⟩ = []
  | [], _ => rfl
  | t :: ts, hw => by
    rw [List.map_cons, pipelineGo]
    have hstep : pipeStep w ⟨[(id, t1)]⟩ e t = (⟨[(id, t1)]⟩, []) := by
      have ht : t ≤ w + t1 := by
        have := hw t (List.mem_cons_self t ts)
        omega
      rw [pipeStep, hv, hid]
      unfold dedupCheck
      simp [List.filter, ht]
    rw [hstep]
    simp only [List.nil_append]
    exact pipelineGo_dup w e id t1 hv hid ts
      (fun x hx => hw x (List.mem_cons_of_mem _ hx))

/-- C1: feeding a valid event and then any number of later copies that
arrive within the dedup window yields exactly the rows of processing it
once — the first-seen copy wins and every later copy is dropped. -/
theorem c1_idempotent (w : ℤ) (e : Event) (t1 : ℤ) (ts : List ℤ)
    (hv : validate e = none) (hw : ∀ t ∈ ts, t - t1 ≤ w) :
    pipelineRun w ((e, t1) :: ts.map fun t => (e, t)) = transform e ∧
    pipelineRun w [(e, t1)] = transform e := by
  have hid : ∃ id, strAt e "event_id" = some id := by
    cases h : strAt e "event_id" with
    | none => rw [validate, h] at hv; simp at hv
    | some id => exact ⟨id, rfl⟩
  obtain ⟨id, hid⟩ := hid
  have hfirst : pipeStep w ⟨[]⟩ e t1 = (⟨[(id, t1)]⟩, transform e) := by
    rw [pipeStep, hv, hid]
    unfold dedupCheck
    simp
  constructor
  · rw [pipelineRun, pipelineGo, hfirst]
    rw [pipelineGo_dup w e id t1 hv hid ts hw]
    exact List.append_nil _
  · rw [pipelineRun, pipelineGo, hfirst]
    simp [pipelineGo]

theorem c1w : pipelineRun 3600 [(eSimple, 0), (eSimple, 10)] =
    transform eSimple :=
  (c1_idempotent 3600 eSimple 0 [10] (by decide) (by decide)).1

end RestroModel

namespace RestroModel

/-! ## Lemmas: `FileBasedEventStream` -/

theorem readBatchGo_eq : ∀ (n : ℕ) (ls : List (List Char)) (acc : List Event)
    (ln : ℕ),
    readBatchGo n ls acc ln =
      (acc ++ (ls.take n).filterMap (fun l => parseLine (strip l)),
       ls.drop n,
       ln + ((ls.take n).filterMap (fun l => parseLine (strip l))).length)
  | 0, ls, acc, ln => by simp [readBatchGo]
  | n + 1, [], acc, ln => by simp [readBatchGo]
  | n + 1, l :: ls, acc, ln => by
    rw [readBatchGo]
    cases h : parseLine (strip l) with
    | some e =>
      dsimp only
      rw [readBatchGo_eq n ls (acc ++ [e]) (ln + 1)]
      simp [List.filterMap_cons, h]
      omega
    | none =>
      dsimp only
      rw [readBatchGo_eq n ls acc ln]
      simp [List.filterMap_cons, h]

theorem readAllGo_eq : ∀ (ls : List (List Char)) (acc : List Event),
    readAllGo ls acc = acc ++ ls.filterMap (fun l => parseLine (strip l))
  | [], acc => by simp [readAllGo]
  | l :: ls, acc => by
    rw [readAllGo]
    cases h : parseLine (strip l) with
    | some e =>
      dsimp only
      rw [readAllGo_eq ls (acc ++ [e])]
      simp [List.filterMap_cons, h]
    | none =>
      dsimp only
      rw [readAllGo_eq ls acc]
      simp [List.filterMap_cons, h]

/-- C10: `read_batch`/`read_all` fail exactly when the stream was not
opened via the context manager; otherwise `read_batch` returns the
parsed events of the next `batch_size` lines (at most `batch_size` of
them, skipping lines that fail JSON decoding) and `read_all` returns the
parsed events of all remaining lines, skipping failing lines. -/
theorem c10_stream_contract (st : StreamState) (n : ℕ) :
    ((read_batch st n).isOk = st.opened) ∧
    ((read_all st).isOk = st.opened) ∧
    (st.opened = true →
      read_batch st n = .ok
        ((st.pending.take n).filterMap (fun l => parseLine (strip l)),
         ⟨true, st.pending.drop n,
          st.lineNumber + ((st.pending.take n).filterMap
            (fun l => parseLine (strip l))).length⟩) ∧
      ((st.pending.take n).filterMap
          (fun l => parseLine (strip l))).length ≤ n ∧
      read_all st = .ok (st.pending.filterMap fun l => parseLine (strip l))) := by
  refine ⟨?_, ?_, ?_⟩
  · rw [read_batch]
    cases h : st.opened <;> simp [h, Except.isOk, Except.toBool]
  · rw [read_all]
    cases h : st.opened <;> simp [h, Except.isOk, Except.toBool]
  · intro hop
    refine ⟨?_, ?_, ?_⟩
    · rw [read_batch, if_pos hop, readBatchGo_eq]
      simp
    · calc ((st.pending.take n).filterMap
            (fun l => parseLine (strip l))).length
          ≤ (st.pending.take n).length := List.length_filterMap_le _ _
        _ ≤ n := by simp [List.length_take]
    · rw [read_all, if_pos hop, readAllGo_eq]
      simp

end RestroModel

namespace RestroModel

/-- Stream opened on a file holding one malformed line and one valid
event line. -/
def stW : StreamState :=
  ⟨true, [("not json".data), encEvent eSimple], 0⟩

theorem c10w : read_all stW = .ok [eSimple] := by
  rw [((c10_stream_contract stW 0).2.2 rfl).2.2]
  have h : (stW.pending.filterMap fun l => parseLine (strip l)) =
      [eSimple] := by
    set_option maxRecDepth 10000 in decide
  rw [h]

end RestroModel

namespace RestroModel

/-! ## Lemmas: JSON round trip -/

/-- Printable ASCII, the character range the generator's strings occupy
(on which the model's encoder agrees with `json.dumps`). -/
def printableCh (c : Char) : Bool := 32 ≤ c.toNat && c.toNat ≤ 126

/-- JSON-representable string in the model. -/
def strReady (s : String) : Bool := s.data.all printableCh

/-- JSON-representable primitive. -/
def primReady : Prim → Bool
  | .s v => strReady v
  | .n _ _ => true

/-- JSON-representable flat object. -/
def objReady (o : Obj) : Bool :=
  o.all fun p => strReady p.1 && primReady p.2

/-- JSON-representable field. -/
def fieldReady : JField → Bool
  | .sc v => primReady v
  | .arr l => l.all objReady

/-- JSON-representable event: all strings printable ASCII (claim C7's
"JSON-representable"). -/
def jsonReady (e : Event) : Bool :=
  e.all fun p => strReady p.1 && fieldReady p.2

theorem mk_data (s : String) : String.mk s.data = s := rfl

theorem parseStrBody_rt : ∀ (cs : List Char) (acc rest : List Char),
    parseStrBody ((cs.map escChar).flatten ++ '"' :: rest) false acc =
      some (String.mk (acc.reverse ++ cs), rest)
  | [], acc, rest => by
    simp [parseStrBody]
  | c :: cs, acc, rest => by
    by_cases hc : c = '"' ∨ c = '\\'
    · simp only [List.map_cons, List.flatten_cons, escChar, if_pos hc,
        List.cons_append, List.append_assoc]
      rw [parseStrBody]
      norm_num
      rw [parseStrBody]
      rw [if_pos hc]
      rw [parseStrBody_rt cs (c :: acc) rest]
      simp
    · simp only [List.map_cons, List.flatten_cons, escChar, if_neg hc,
        List.cons_append, List.append_assoc, List.singleton_append]
      rw [parseStrBody]
      push_neg at hc
      norm_num [hc.1, hc.2, List.nil_append]
      rw [parseStrBody_rt cs (c :: acc) rest]
      simp

theorem parseStr_rt (s : String) (rest : List Char) :
    parseStr (encStr s ++ rest) = some (s, rest) := by
  rw [encStr]
  simp only [List.cons_append, List.append_assoc, List.singleton_append,
    List.nil_append]
  rw [parseStr]
  rw [if_pos rfl]
  rw [parseStrBody_rt s.data [] rest]
  simp [mk_data]

end RestroModel

namespace RestroModel

/-- Digit-run value accumulated the way `parseDigs` does. -/
def valFrom (v : ℕ) (u : List Char) : ℕ :=
  u.foldl (fun a c => 10 * a + (c.toNat - 48)) v

theorem toNat_dchar (n : ℕ) : (dchar n).toNat = 48 + n % 10 := by
  unfold dchar
  have h : n % 10 < 10 := Nat.mod_lt _ (by norm_num)
  set k := n % 10 with hk
  interval_cases k <;> decide

theorem isDigitCh_iff (c : Char) :
    isDigitCh c = true ↔ 48 ≤ c.toNat ∧ c.toNat ≤ 57 := by
  simp [isDigitCh]

/-- Marker that a maximal digit run stops at this list. -/
def headNotDigit : List Char → Prop
  | c :: _ => isDigitCh c = false
  | [] => True

theorem parseDigs_run : ∀ (u rest : List Char) (v k : ℕ),
    (∀ c ∈ u, isDigitCh c = true) → headNotDigit rest →
    parseDigs (u ++ rest) v k = (valFrom v u, k + u.length, rest)
  | [], rest, v, k, _, hr => by
    cases rest with
    | nil => simp [parseDigs, valFrom]
    | cons c r =>
      rw [headNotDigit] at hr
      simp [parseDigs, hr, valFrom]
  | c :: u, rest, v, k, hd, hr => by
    rw [List.cons_append, parseDigs]
    rw [hd c (List.mem_cons_self c u), if_pos rfl]
    rw [parseDigs_run u rest _ _ (fun x hx => hd x (List.mem_cons_of_mem _ hx)) hr]
    simp [valFrom]
    omega

theorem parseNatL_run (u rest : List Char) (hu : u ≠ [])
    (hd : ∀ c ∈ u, isDigitCh c = true) (hr : headNotDigit rest) :
    parseNatL (u ++ rest) = some (valFrom 0 u, u.length, rest) := by
  cases u with
  | nil => exact absurd rfl hu
  | cons c u =>
    rw [List.cons_append, parseNatL]
    rw [hd c (List.mem_cons_self c u), if_pos rfl]
    rw [← List.cons_append, parseDigs_run (c :: u) rest 0 0 hd hr]
    simp

theorem valFrom_append (v : ℕ) (u : List Char) (c : Char) :
    valFrom v (u ++ [c]) = 10 * valFrom v u + (c.toNat - 48) := by
  simp [valFrom, List.foldl_append]

theorem valFrom_padNat (k n : ℕ) : valFrom 0 (padNat k n) = n % 10 ^ k := by
  induction k generalizing n with
  | zero => simp [padNat, valFrom, Nat.mod_one]
  | succ k ih =>
    rw [padNat, valFrom_append, ih, toNat_dchar]
    have h1 : 48 + n % 10 - 48 = n % 10 := by omega
    rw [h1]
    rw [pow_succ', Nat.mod_mul]
    ring

theorem natDigsF_spec : ∀ (fu n : ℕ), n < 10 ^ (fu + 1) →
    natDigsF (fu + 1) n ≠ [] ∧
    (∀ c ∈ natDigsF (fu + 1) n, isDigitCh c = true) ∧
    valFrom 0 (natDigsF (fu + 1) n) = n
  | 0, n, h => by
    have hn : n < 10 := by simpa using h
    rw [natDigsF, if_pos hn]
    refine ⟨by simp, ?_, ?_⟩
    · intro c hc
      simp at hc
      subst hc
      exact isDigitCh_dchar n
    · simp [valFrom, toNat_dchar]
      omega
  | fu + 1, n, h => by
    by_cases hn : n < 10
    · rw [natDigsF, if_pos hn]
      refine ⟨by simp, ?_, ?_⟩
      · intro c hc
        simp at hc
        subst hc
        exact isDigitCh_dchar n
      · simp [valFrom, toNat_dchar]
        omega
    · rw [natDigsF, if_neg hn]
      have hdiv : n / 10 < 10 ^ (fu + 1) := by
        rw [Nat.div_lt_iff_lt_mul (by norm_num)]
        rw [pow_succ] at h
        omega
      obtain ⟨h1, h2, h3⟩ := natDigsF_spec fu (n / 10) hdiv
      refine ⟨by simp, ?_, ?_⟩
      · intro c hc
        simp only [List.mem_append, List.mem_singleton] at hc
        rcases hc with hc | hc
        · exact h2 c hc
        · subst hc
          exact isDigitCh_dchar n
      · rw [valFrom_append, h3, toNat_dchar]
        omega

theorem natDigs_spec (n : ℕ) :
    natDigs n ≠ [] ∧ (∀ c ∈ natDigs n, isDigitCh c = true) ∧
    valFrom 0 (natDigs n) = n := by
  have h : n < 10 ^ (n + 1) := by
    calc n < 2 ^ n := Nat.lt_two_pow n
    _ ≤ 10 ^ n := Nat.pow_le_pow_left (by norm_num) n
    _ ≤ 10 ^ (n + 1) := Nat.pow_le_pow_right (by norm_num) (Nat.le_succ n)
  exact natDigsF_spec n n h

end RestroModel

namespace RestroModel

theorem isDigitCh_ne (c : Char) (h : isDigitCh c = true) :
    c ≠ '-' ∧ c ≠ '.' ∧ c ≠ '"' ∧ c ≠ '[' ∧ c ≠ ' ' := by
  rw [isDigitCh_iff] at h
  refine ⟨?_, ?_, ?_, ?_, ?_⟩ <;> (intro he; subst he; revert h; decide)

/-- Marker that number parsing stops cleanly at this list. -/
def numStop : List Char → Prop
  | c :: _ => isDigitCh c = false ∧ c ≠ '.'
  | [] => True

theorem numStop_headNotDigit {rest : List Char} (h : numStop rest) :
    headNotDigit rest := by
  cases rest with
  | nil => trivial
  | cons c r => exact h.1

theorem padNat_ne_nil (e a : ℕ) (he : e ≠ 0) : padNat e a ≠ [] := by
  intro h
  have := padNat_length e a
  rw [h] at this
  simp at this
  omega

theorem parseNumTail_rt (neg : Bool) (a e : ℕ) (rest : List Char)
    (hr : numStop rest) :
    parseNumTail neg (encNumAbs a e ++ rest) =
      some (.n (signVal neg a) e, rest) := by
  by_cases he : e = 0
  · subst he
    rw [encNumAbs, if_pos rfl]
    obtain ⟨h1, h2, h3⟩ := natDigs_spec a
    rw [parseNumTail, parseNatL_run (natDigs a) rest h1 h2
      (numStop_headNotDigit hr)]
    cases rest with
    | nil => rw [h3]
    | cons c r =>
      rw [h3]
      simp [hr.2]
  · rw [encNumAbs, if_neg he]
    obtain ⟨h1, h2, h3⟩ := natDigs_spec (a / 10 ^ e)
    rw [List.append_assoc, List.cons_append]
    rw [parseNumTail, parseNatL_run (natDigs (a / 10 ^ e)) _ h1 h2 (by
      rw [headNotDigit]
      decide)]
    simp only [if_pos rfl]
    rw [parseNatL_run (padNat e a) rest (padNat_ne_nil e a he)
      (padNat_digits e a) (numStop_headNotDigit hr)]
    rw [h3, valFrom_padNat, padNat_length]
    simp only [if_true]
    have hda : a / 10 ^ e * 10 ^ e + a % 10 ^ e = a := by
      have h := Nat.div_add_mod a (10 ^ e)
      rw [Nat.mul_comm] at h
      exact h
    rw [hda]

end RestroModel

namespace RestroModel

theorem natDigs_head_digit (n : ℕ) :
    ∃ d ds, natDigs n = d :: ds ∧ isDigitCh d = true := by
  obtain ⟨h1, h2, _⟩ := natDigs_spec n
  cases hd : natDigs n with
  | nil => exact absurd hd h1
  | cons d ds =>
    exact ⟨d, ds, rfl, h2 d (by rw [hd]; exact List.mem_cons_self d ds)⟩

theorem encNumAbs_head (a e : ℕ) :
    ∃ d ds, encNumAbs a e = d :: ds ∧ isDigitCh d = true := by
  rw [encNumAbs]
  by_cases he : e = 0
  · rw [if_pos he]
    exact natDigs_head_digit a
  · rw [if_neg he]
    obtain ⟨d, ds, hd, hdig⟩ := natDigs_head_digit (a / 10 ^ e)
    exact ⟨d, ds ++ '.' :: padNat e a, by rw [hd]; rfl, hdig⟩

theorem parseNumP_rt (m : ℤ) (e : ℕ) (rest : List Char) (hr : numStop rest) :
    parseNumP (encNum m e ++ rest) = some (.n m e, rest) := by
  obtain ⟨d, ds, hd, hdig⟩ := encNumAbs_head m.natAbs e
  by_cases hm : m < 0
  · rw [encNum, if_pos hm]
    have hshape : (['-'] ++ encNumAbs m.natAbs e) ++ rest =
        '-' :: (encNumAbs m.natAbs e ++ rest) := by simp
    rw [hshape, parseNumP, if_pos rfl]
    rw [parseNumTail_rt true m.natAbs e rest hr]
    have hs : signVal true m.natAbs = -(m.natAbs : ℤ) := rfl
    rw [hs]
    have habs : -(m.natAbs : ℤ) = m := by omega
    rw [habs]
  · rw [encNum, if_neg hm, List.nil_append]
    rw [hd, List.cons_append, parseNumP]
    rw [if_neg (isDigitCh_ne d hdig).1]
    rw [← List.cons_append, ← hd]
    rw [parseNumTail_rt false m.natAbs e rest hr]
    congr 2
    rw [signVal]
    simp
    omega

end RestroModel

namespace RestroModel

theorem parsePrim_rt (p : Prim) (rest : List Char) (hr : numStop rest) :
    parsePrim (encPrim p ++ rest) = some (p, rest) := by
  cases p with
  | s v =>
    have hshape : encStr v ++ rest =
        '"' :: ((v.data.map escChar).flatten ++ ('"' :: rest)) := by
      rw [encStr]
      simp
    rw [encPrim, hshape, parsePrim.eq_def]
    dsimp only
    rw [if_pos rfl]
    rw [← hshape, parseStr_rt]
    rfl
  | n m e =>
    rw [encPrim]
    by_cases hm : m < 0
    · have hshape : encNum m e ++ rest =
          '-' :: (encNumAbs m.natAbs e ++ rest) := by
        rw [encNum, if_pos hm]
        simp
      rw [hshape, parsePrim.eq_def]
      dsimp only
      rw [if_neg (by decide : ¬('-' : Char) = '"')]
      rw [← hshape, parseNumP_rt m e rest hr]
    · obtain ⟨d, ds, hd, hdig⟩ := encNumAbs_head m.natAbs e
      have hshape : encNum m e ++ rest = d :: (ds ++ rest) := by
        rw [encNum, if_neg hm, List.nil_append, hd]
        simp
      rw [hshape, parsePrim.eq_def]
      dsimp only
      rw [if_neg (fun h => by subst h; revert hdig; decide)]
      rw [← hshape, parseNumP_rt m e rest hr]

end RestroModel

namespace RestroModel

theorem skipSp_cons_of {c : Char} (l : List Char) (h : ¬c = ' ') :
    skipSp (c :: l) = c :: l := by
  simp [skipSp, List.dropWhile_cons, h]

theorem skipSp_space (l : List Char) : skipSp (' ' :: l) = skipSp l := by
  simp [skipSp, List.dropWhile_cons]

/-- The comma-joined field list inside an encoded flat object. -/
def encObjInner (o : Obj) : List Char :=
  sepJoin (o.map fun p => encPair p.1 (encPrim p.2))

theorem encObj_eq (o : Obj) : encObj o = lbr :: (encObjInner o ++ [rbr]) := rfl

theorem encPrim_head (p : Prim) :
    ∃ d ds, encPrim p = d :: ds ∧ (d = '"' ∨ d = '-' ∨ isDigitCh d = true) := by
  cases p with
  | s v => exact ⟨'"', _, rfl, Or.inl rfl⟩
  | n m e =>
    by_cases hm : m < 0
    · refine ⟨'-', encNumAbs m.natAbs e, ?_, Or.inr (Or.inl rfl)⟩
      rw [encPrim, encNum, if_pos hm]
      rfl
    · obtain ⟨d, ds, hd, hdig⟩ := encNumAbs_head m.natAbs e
      refine ⟨d, ds, ?_, Or.inr (Or.inr hdig)⟩
      rw [encPrim, encNum, if_neg hm, List.nil_append, hd]

theorem encPrim_head_ne_space (p : Prim) (rest : List Char) :
    skipSp (encPrim p ++ rest) = encPrim p ++ rest := by
  obtain ⟨d, ds, hd, hcl⟩ := encPrim_head p
  rw [hd, List.cons_append]
  refine skipSp_cons_of _ ?_
  rcases hcl with rfl | rfl | hdig
  · decide
  · decide
  · exact (isDigitCh_ne d hdig).2.2.2.2

theorem sepJoin_cons_ex {x : List Char} {xs : List (List Char)} :
    ∃ t, sepJoin (x :: xs) = x ++ t := by
  cases xs with
  | nil => exact ⟨[], by simp [sepJoin]⟩
  | cons y ys => exact ⟨',' :: ' ' :: sepJoin (y :: ys), rfl⟩

theorem encObjInner_head (x : String × Prim) (xs : Obj) (rest : List Char) :
    skipSp (encObjInner (x :: xs) ++ rest) = encObjInner (x :: xs) ++ rest := by
  obtain ⟨t, ht⟩ := @sepJoin_cons_ex
    (encPair x.1 (encPrim x.2)) (xs.map fun p => encPair p.1 (encPrim p.2))
  rw [encObjInner, List.map_cons, ht, encPair, encStr]
  simp only [List.cons_append, List.append_assoc]
  exact skipSp_cons_of _ (by decide)

theorem rbr_numStop (rest : List Char) : numStop (rbr :: rest) := by
  constructor <;> decide

theorem comma_numStop (rest : List Char) : numStop (',' :: rest) := by
  constructor <;> decide

end RestroModel

namespace RestroModel

theorem parseObjFields_rt : ∀ (o : Obj) (fu : ℕ) (rest : List Char),
    o ≠ [] → o.length ≤ fu →
    parseObjFields fu (encObjInner o ++ rbr :: rest) = some (o, rest)
  | [], _, _, h, _ => absurd rfl h
  | [p], fu, rest, _, hfu => by
    obtain ⟨fu', rfl⟩ : ∃ fu'', fu = fu'' + 1 := by
      cases fu
      · simp at hfu
      · exact ⟨_, rfl⟩
    have hshape : encObjInner [p] ++ rbr :: rest =
        encStr p.1 ++ (':' :: (' ' :: (encPrim p.2 ++ rbr :: rest))) := by
      rw [encObjInner]
      simp [sepJoin, encPair]
    rw [hshape, parseObjFields]
    rw [parseStr_rt p.1 _]
    dsimp only
    rw [skipSp_cons_of _ (by decide), chkLit_cons]
    dsimp only
    rw [skipSp_space, encPrim_head_ne_space]
    rw [parsePrim_rt p.2 _ (rbr_numStop rest)]
    dsimp only
    rw [skipSp_cons_of _ (by decide)]
    dsimp only
    rw [if_neg (by decide), if_pos rfl]
  | p :: q :: o, fu, rest, _, hfu => by
    obtain ⟨fu', rfl⟩ : ∃ fu'', fu = fu'' + 1 := by
      cases fu
      · simp at hfu
      · exact ⟨_, rfl⟩
    have hshape : encObjInner (p :: q :: o) ++ rbr :: rest =
        encStr p.1 ++ (':' :: (' ' :: (encPrim p.2 ++
          ',' :: (' ' :: (encObjInner (q :: o) ++ rbr :: rest))))) := by
      rw [encObjInner, List.map_cons, List.map_cons, sepJoin, encPair]
      rw [encObjInner]
      simp [List.cons_append, List.append_assoc]
    rw [hshape, parseObjFields]
    rw [parseStr_rt p.1 _]
    dsimp only
    rw [skipSp_cons_of _ (by decide), chkLit_cons]
    dsimp only
    rw [skipSp_space, encPrim_head_ne_space]
    rw [parsePrim_rt p.2 _ (comma_numStop _)]
    dsimp only
    rw [skipSp_cons_of _ (by decide)]
    dsimp only
    rw [if_pos rfl]
    rw [skipSp_space, encObjInner_head]
    rw [parseObjFields_rt (q :: o) fu' rest (by simp) (by simpa using hfu)]

end RestroModel

namespace RestroModel

theorem encObjInner_cons_shape (x : String × Prim) (xs : Obj) :
    ∃ t, encObjInner (x :: xs) = '"' :: t := by
  obtain ⟨t, ht⟩ := @sepJoin_cons_ex
    (encPair x.1 (encPrim x.2))
    (xs.map fun p => encPair p.1 (encPrim p.2))
  rw [encObjInner, List.map_cons, ht, encPair, encStr]
  exact ⟨_, rfl⟩

theorem parseObj_rt (o : Obj) (fu : ℕ) (rest : List Char)
    (hfu : o.length ≤ fu) :
    parseObj fu (encObj o ++ rest) = some (o, rest) := by
  have hshape : encObj o ++ rest = lbr :: (encObjInner o ++ rbr :: rest) := by
    rw [encObj_eq]
    simp
  rw [hshape, parseObj, chkLit_cons]
  cases o with
  | nil =>
    rw [encObjInner]
    show (match skipSp (sepJoin [] ++ rbr :: rest) with
      | [] => none
      | c :: r2 => if c = rbr then some ([], r2)
          else parseObjFields fu (c :: r2)) = some ([], rest)
    rw [sepJoin, List.nil_append, skipSp_cons_of _ (by decide)]
    dsimp only
    rw [if_pos rfl]
  | cons x xs =>
    obtain ⟨t, ht⟩ := encObjInner_cons_shape x xs
    rw [ht, List.cons_append]
    dsimp only
    rw [skipSp_cons_of _ (by decide : ¬('"' : Char) = ' ')]
    dsimp only
    rw [if_neg (by decide), ← List.cons_append, ← ht]
    exact parseObjFields_rt (x :: xs) fu rest (by simp) hfu

/-- Fuel sufficient for parsing an encoded item array. -/
def fuelItems (l : List Obj) : ℕ := l.length + (l.map List.length).sum

theorem encObj_cons_shape (o : Obj) (xs : List (List Char)) :
    ∃ t, sepJoin (encObj o :: xs) = lbr :: t := by
  obtain ⟨t, ht⟩ := @sepJoin_cons_ex (encObj o) xs
  rw [ht, encObj_eq]
  exact ⟨_, rfl⟩

theorem parseItemsGo_rt : ∀ (l : List Obj) (fu : ℕ) (rest : List Char),
    l ≠ [] → fuelItems l ≤ fu →
    parseItemsGo fu (sepJoin (l.map encObj) ++ ']' :: rest) = some (l, rest)
  | [], _, _, h, _ => absurd rfl h
  | [o], fu, rest, _, hfu => by
    obtain ⟨fu', rfl⟩ : ∃ fu'', fu = fu'' + 1 := by
      cases fu
      · rw [fuelItems] at hfu; simp at hfu
      · exact ⟨_, rfl⟩
    rw [List.map_cons, List.map_nil, sepJoin, parseItemsGo]
    rw [parseObj_rt o fu' (']' :: rest) (by
      rw [fuelItems] at hfu
      simp at hfu
      omega)]
    dsimp only
    rw [skipSp_cons_of _ (by decide)]
    dsimp only
    rw [if_neg (by decide), if_pos rfl]
  | o :: o2 :: l, fu, rest, _, hfu => by
    obtain ⟨fu', rfl⟩ : ∃ fu'', fu = fu'' + 1 := by
      cases fu
      · rw [fuelItems] at hfu; simp at hfu
      · exact ⟨_, rfl⟩
    have hshape : sepJoin ((o :: o2 :: l).map encObj) ++ ']' :: rest =
        encObj o ++ (',' :: (' ' :: (sepJoin ((o2 :: l).map encObj) ++
          ']' :: rest))) := by
      rw [List.map_cons, List.map_cons, sepJoin]
      rw [← List.map_cons]
      simp [List.cons_append, List.append_assoc]
    rw [hshape, parseItemsGo]
    rw [parseObj_rt o fu' _ (by
      rw [fuelItems] at hfu
      simp at hfu
      omega)]
    dsimp only
    rw [skipSp_cons_of _ (by decide)]
    dsimp only
    rw [if_pos rfl, skipSp_space]
    obtain ⟨t, ht⟩ := encObj_cons_shape o2 ((l.map encObj))
    rw [List.map_cons, ht, List.cons_append, skipSp_cons_of _ (by decide)]
    rw [← List.cons_append, ← ht, ← List.map_cons]
    rw [parseItemsGo_rt (o2 :: l) fu' rest (by simp) (by
      rw [fuelItems] at hfu ⊢
      simp at hfu ⊢
      omega)]

end RestroModel

namespace RestroModel

theorem parseArr_rt (l : List Obj) (fu : ℕ) (rest : List Char)
    (hfu : fuelItems l ≤ fu) :
    parseArr fu (('[' :: sepJoin (l.map encObj) ++ [']']) ++ rest) =
      some (l, rest) := by
  cases l with
  | nil =>
    have hshape : (('[' : Char) :: sepJoin (([] : List Obj).map encObj) ++ [']']) ++ rest =
        '[' :: ']' :: rest := by
      simp [sepJoin]
    rw [hshape, parseArr, chkLit_cons]
    dsimp only
    rw [skipSp_cons_of _ (by decide : ¬(']' : Char) = ' ')]
    dsimp only
    rw [if_pos rfl]
  | cons o l2 =>
    obtain ⟨t, ht⟩ := encObj_cons_shape o (l2.map encObj)
    have hshape : (('[' : Char) :: sepJoin ((o :: l2).map encObj) ++ [']']) ++ rest =
        '[' :: (sepJoin ((o :: l2).map encObj) ++ ']' :: rest) := by
      simp
    rw [hshape, parseArr, chkLit_cons]
    dsimp only
    rw [List.map_cons, ht, List.cons_append,
      skipSp_cons_of _ (by decide : ¬lbr = ' ')]
    dsimp only
    rw [if_neg (by decide : ¬lbr = ']')]
    rw [← List.cons_append, ← ht, ← List.map_cons]
    exact parseItemsGo_rt (o :: l2) fu rest (by simp) hfu

/-- Fuel sufficient for parsing an encoded field value. -/
def fuelField : JField → ℕ
  | .sc _ => 0
  | .arr l => fuelItems l

theorem parseFieldVal_rt (f : JField) (fu : ℕ) (rest : List Char)
    (hfu : fuelField f ≤ fu) (hr : numStop rest) :
    parseFieldVal fu (encField f ++ rest) = some (f, rest) := by
  cases f with
  | sc v =>
    obtain ⟨d, ds, hd, hcl⟩ := encPrim_head v
    have hshape : encField (.sc v) ++ rest = d :: (ds ++ rest) := by
      rw [encField, hd]
      simp
    rw [hshape, parseFieldVal]
    have hne : ¬d = '[' := by
      rcases hcl with rfl | rfl | hdig
      · decide
      · decide
      · exact (isDigitCh_ne d hdig).2.2.2.1
    rw [if_neg hne, ← hshape]
    rw [encField, parsePrim_rt v rest hr]
    rfl
  | arr l =>
    have hshape : encField (.arr l) ++ rest =
        '[' :: (sepJoin (l.map encObj) ++ ']' :: rest) := by
      rw [encField]
      simp
    rw [hshape, parseFieldVal]
    rw [if_pos rfl]
    have hsh2 : ('[' : Char) :: (sepJoin (l.map encObj) ++ ']' :: rest) =
        ('[' :: sepJoin (l.map encObj) ++ [']']) ++ rest := by
      simp
    rw [hsh2, parseArr_rt l fu rest (by simpa [fuelField] using hfu)]
    rfl

end RestroModel

namespace RestroModel

/-- The comma-joined field list inside an encoded event. -/
def encEvInner (ev : Event) : List Char :=
  sepJoin (ev.map fun p => encPair p.1 (encField p.2))

theorem encEvent_eq (ev : Event) :
    encEvent ev = lbr :: (encEvInner ev ++ [rbr]) := rfl

/-- Fuel sufficient for parsing an encoded event. -/
def fuelEvent (ev : Event) : ℕ :=
  ev.length + (ev.map fun p => fuelField p.2).sum

theorem encField_head_ne_space (f : JField) (rest : List Char) :
    skipSp (encField f ++ rest) = encField f ++ rest := by
  cases f with
  | sc v => exact encPrim_head_ne_space v rest
  | arr l =>
    rw [encField, List.cons_append]
    exact skipSp_cons_of _ (by decide)

theorem encEvInner_head (x : String × JField) (xs : Event) (rest : List Char) :
    skipSp (encEvInner (x :: xs) ++ rest) = encEvInner (x :: xs) ++ rest := by
  obtain ⟨t, ht⟩ := @sepJoin_cons_ex
    (encPair x.1 (encField x.2))
    (xs.map fun p => encPair p.1 (encField p.2))
  rw [encEvInner, List.map_cons, ht, encPair, encStr]
  simp only [List.cons_append, List.append_assoc]
  exact skipSp_cons_of _ (by decide)

theorem encEvInner_cons_shape (x : String × JField) (xs : Event) :
    ∃ t, encEvInner (x :: xs) = '"' :: t := by
  obtain ⟨t, ht⟩ := @sepJoin_cons_ex
    (encPair x.1 (encField x.2))
    (xs.map fun p => encPair p.1 (encField p.2))
  rw [encEvInner, List.map_cons, ht, encPair, encStr]
  exact ⟨_, rfl⟩

theorem parseEvFields_rt : ∀ (ev : Event) (fu : ℕ) (rest : List Char),
    ev ≠ [] → fuelEvent ev ≤ fu →
    parseEvFields fu (encEvInner ev ++ rbr :: rest) = some (ev, rest)
  | [], _, _, h, _ => absurd rfl h
  | [p], fu, rest, _, hfu => by
    obtain ⟨fu', rfl⟩ : ∃ fu'', fu = fu'' + 1 := by
      cases fu
      · rw [fuelEvent] at hfu; simp at hfu
      · exact ⟨_, rfl⟩
    have hshape : encEvInner [p] ++ rbr :: rest =
        encStr p.1 ++ (':' :: (' ' :: (encField p.2 ++ rbr :: rest))) := by
      rw [encEvInner]
      simp [sepJoin, encPair]
    rw [hshape, parseEvFields]
    rw [parseStr_rt p.1 _]
    dsimp only
    rw [skipSp_cons_of _ (by decide), chkLit_cons]
    dsimp only
    rw [skipSp_space, encField_head_ne_space]
    rw [parseFieldVal_rt p.2 fu' _ (by
      rw [fuelEvent] at hfu
      simp at hfu
      omega) (rbr_numStop rest)]
    dsimp only
    rw [skipSp_cons_of _ (by decide)]
    dsimp only
    rw [if_neg (by decide), if_pos rfl]
  | p :: q :: ev, fu, rest, _, hfu => by
    obtain ⟨fu', rfl⟩ : ∃ fu'', fu = fu'' + 1 := by
      cases fu
      · rw [fuelEvent] at hfu; simp at hfu
      · exact ⟨_, rfl⟩
    have hshape : encEvInner (p :: q :: ev) ++ rbr :: rest =
        encStr p.1 ++ (':' :: (' ' :: (encField p.2 ++
          ',' :: (' ' :: (encEvInner (q :: ev) ++ rbr :: rest))))) := by
      rw [encEvInner, List.map_cons, List.map_cons, sepJoin, encPair]
      rw [encEvInner]
      simp [List.cons_append, List.append_assoc]
    rw [hshape, parseEvFields]
    rw [parseStr_rt p.1 _]
    dsimp only
    rw [skipSp_cons_of _ (by decide), chkLit_cons]
    dsimp only
    rw [skipSp_space, encField_head_ne_space]
    rw [parseFieldVal_rt p.2 fu' _ (by
      rw [fuelEvent] at hfu
      simp at hfu
      omega) (comma_numStop _)]
    dsimp only
    rw [skipSp_cons_of _ (by decide)]
    dsimp only
    rw [if_pos rfl]
    rw [skipSp_space, encEvInner_head]
    rw [parseEvFields_rt (q :: ev) fu' rest (by simp) (by
      rw [fuelEvent] at hfu ⊢
      simp at hfu ⊢
      omega)]

theorem parseEvent_rt (ev : Event) (fu : ℕ) (rest : List Char)
    (hfu : fuelEvent ev ≤ fu) :
    parseEvent fu (encEvent ev ++ rest) = some (ev, rest) := by
  have hshape : encEvent ev ++ rest = lbr :: (encEvInner ev ++ rbr :: rest) := by
    rw [encEvent_eq]
    simp
  rw [hshape, parseEvent, chkLit_cons]
  cases ev with
  | nil =>
    rw [encEvInner]
    show (match skipSp (sepJoin [] ++ rbr :: rest) with
      | [] => none
      | c :: r2 => if c = rbr then some ([], r2)
          else parseEvFields fu (c :: r2)) = some ([], rest)
    rw [sepJoin, List.nil_append, skipSp_cons_of _ (by decide)]
    dsimp only
    rw [if_pos rfl]
  | cons x xs =>
    obtain ⟨t, ht⟩ := encEvInner_cons_shape x xs
    rw [ht, List.cons_append]
    dsimp only
    rw [skipSp_cons_of _ (by decide : ¬('"' : Char) = ' ')]
    dsimp only
    rw [if_neg (by decide), ← List.cons_append, ← ht]
    exact parseEvFields_rt (x :: xs) fu rest (by simp) hfu

end RestroModel

namespace RestroModel

theorem encObj_len (o : Obj) : o.length + 1 ≤ (encObj o).length := by
  rw [encObj_eq]
  have h : o.length ≤ (encObjInner o).length := by
    rw [encObjInner]
    induction o with
    | nil => simp [sepJoin]
    | cons p o ih =>
      cases o with
      | nil =>
        simp only [List.map_cons, List.map_nil, sepJoin, encPair, encStr,
          List.length_append, List.length_cons, List.length_nil]
        omega
      | cons q o2 =>
        have hsep : sepJoin ((p :: q :: o2).map fun r => encPair r.1 (encPrim r.2)) =
            encPair p.1 (encPrim p.2) ++ ',' :: ' ' ::
              sepJoin ((q :: o2).map fun r => encPair r.1 (encPrim r.2)) := by
          simp only [List.map_cons]
          rw [sepJoin]
        rw [hsep]
        simp only [List.length_cons, List.length_append] at ih ⊢
        omega
  simp only [List.length_cons, List.length_append, List.length_singleton]
  omega

theorem fuelItems_le : ∀ l : List Obj,
    fuelItems l ≤ (sepJoin (l.map encObj)).length
  | [] => by simp [fuelItems, sepJoin]
  | [o] => by
    have h := encObj_len o
    rw [fuelItems]
    simp [sepJoin]
    omega
  | o :: o2 :: l => by
    have h1 := encObj_len o
    have h2 := fuelItems_le (o2 :: l)
    have hsep : sepJoin ((o :: o2 :: l).map encObj) =
        encObj o ++ ',' :: ' ' :: sepJoin ((o2 :: l).map encObj) := by
      rw [List.map_cons, List.map_cons, sepJoin, ← List.map_cons]
    rw [fuelItems] at h2 ⊢
    rw [hsep]
    simp only [List.map_cons, List.sum_cons, List.length_cons,
      List.length_append] at h2 ⊢
    omega

theorem fuelField_le (f : JField) : fuelField f ≤ (encField f).length := by
  cases f with
  | sc v => simp [fuelField]
  | arr l =>
    have h := fuelItems_le l
    rw [fuelField, encField]
    simp only [List.length_cons, List.length_append, List.length_singleton]
    omega

theorem fuelEvInner_le : ∀ ev : Event,
    fuelEvent ev ≤ (encEvInner ev).length
  | [] => by simp [fuelEvent, encEvInner, sepJoin]
  | [p] => by
    have h := fuelField_le p.2
    rw [fuelEvent, encEvInner]
    simp [sepJoin, encPair, encStr]
    omega
  | p :: q :: ev => by
    have h1 := fuelField_le p.2
    have h2 := fuelEvInner_le (q :: ev)
    have hsep : encEvInner (p :: q :: ev) =
        encPair p.1 (encField p.2) ++ ',' :: ' ' :: encEvInner (q :: ev) := by
      simp only [encEvInner, List.map_cons]
      rw [sepJoin]
    rw [fuelEvent] at h2 ⊢
    rw [hsep]
    simp only [List.map_cons, List.sum_cons, List.length_cons,
      List.length_append, List.length_singleton, encPair, encStr] at h2 ⊢
    omega

theorem fuelEvent_le (ev : Event) : fuelEvent ev ≤ (encEvent ev).length := by
  have h := fuelEvInner_le ev
  rw [encEvent_eq]
  simp only [List.length_cons, List.length_append, List.length_singleton]
  omega

theorem parseLine_enc (ev : Event) : parseLine (encEvent ev) = some ev := by
  rw [parseLine]
  have h := parseEvent_rt ev ((encEvent ev).length + 1) []
    (le_trans (fuelEvent_le ev) (Nat.le_succ _))
  rw [List.append_nil] at h
  rw [h]
  simp

end RestroModel

namespace RestroModel

theorem printable_ne_nl {c : Char} (h : printableCh c = true) : c ≠ '\n' := by
  intro he
  subst he
  revert h
  decide

theorem digit_ne_nl {c : Char} (h : isDigitCh c = true) : c ≠ '\n' := by
  intro he
  subst he
  revert h
  decide

theorem nl_not_mem_encStr {s : String} (hs : strReady s = true) :
    '\n' ∉ encStr s := by
  rw [encStr]
  intro hmem
  rw [List.mem_append, List.mem_cons] at hmem
  rcases hmem with (h | h) | h
  · exact absurd h (by decide)
  · rw [List.mem_flatten] at h
    obtain ⟨l, hl, hc⟩ := h
    rw [List.mem_map] at hl
    obtain ⟨c, hcs, rfl⟩ := hl
    have hpr : printableCh c = true := by
      rw [strReady, List.all_eq_true] at hs
      exact hs c hcs
    rw [escChar] at hc
    by_cases hcc : c = '"' ∨ c = '\\'
    · rw [if_pos hcc] at hc
      rw [List.mem_cons, List.mem_singleton] at hc
      rcases hc with h | h
      · exact absurd h.symm (by decide)
      · exact printable_ne_nl hpr h.symm
    · rw [if_neg hcc] at hc
      rw [List.mem_singleton] at hc
      exact printable_ne_nl hpr hc.symm
  · exact absurd h (by decide)

theorem nl_not_mem_natDigs (n : ℕ) : '\n' ∉ natDigs n := by
  intro h
  obtain ⟨_, h2, _⟩ := natDigs_spec n
  exact digit_ne_nl (h2 _ h) rfl

theorem nl_not_mem_padNat (k n : ℕ) : '\n' ∉ padNat k n := by
  intro h
  exact digit_ne_nl (padNat_digits k n _ h) rfl

theorem nl_not_mem_encNumAbs (a e : ℕ) : '\n' ∉ encNumAbs a e := by
  rw [encNumAbs]
  by_cases he : e = 0
  · rw [if_pos he]
    exact nl_not_mem_natDigs a
  · rw [if_neg he]
    intro h
    rw [List.mem_append, List.mem_cons] at h
    rcases h with h | h | h
    · exact nl_not_mem_natDigs _ h
    · exact absurd h (by decide)
    · exact nl_not_mem_padNat _ _ h

theorem nl_not_mem_encPrim {p : Prim} (hp : primReady p = true) :
    '\n' ∉ encPrim p := by
  cases p with
  | s v => exact nl_not_mem_encStr hp
  | n m e =>
    rw [encPrim, encNum]
    intro h
    rw [List.mem_append] at h
    rcases h with h | h
    · by_cases hm : m < 0
      · rw [if_pos hm] at h
        rw [List.mem_singleton] at h
        exact absurd h (by decide)
      · rw [if_neg hm] at h
        simp at h
    · exact nl_not_mem_encNumAbs _ _ h

theorem nl_not_mem_sepJoin : ∀ xs : List (List Char),
    (∀ x ∈ xs, '\n' ∉ x) → '\n' ∉ sepJoin xs
  | [], _ => by simp [sepJoin]
  | [x], h => by
    rw [sepJoin]
    exact h x (List.mem_cons_self x [])
  | x :: y :: xs, h => by
    rw [sepJoin]
    intro hm
    rw [List.mem_append, List.mem_cons] at hm
    rcases hm with hm | hm | hm
    · exact h x (List.mem_cons_self x _) hm
    · exact absurd hm (by decide)
    · rw [List.mem_cons] at hm
      rcases hm with hm | hm
      · exact absurd hm (by decide)
      · exact nl_not_mem_sepJoin (y :: xs)
          (fun z hz => h z (List.mem_cons_of_mem x hz)) hm

theorem nl_not_mem_encPair {k : String} {v : List Char}
    (hk : strReady k = true) (hv : '\n' ∉ v) :
    '\n' ∉ encPair k v := by
  rw [encPair]
  intro h
  rw [List.mem_append, List.mem_cons] at h
  rcases h with h | h | h
  · exact nl_not_mem_encStr hk h
  · exact absurd h (by decide)
  · rw [List.mem_cons] at h
    rcases h with h | h
    · exact absurd h (by decide)
    · exact hv h

theorem nl_not_mem_encObj {o : Obj} (ho : objReady o = true) :
    '\n' ∉ encObj o := by
  rw [encObj]
  intro h
  rw [List.mem_append, List.mem_cons] at h
  rcases h with (h | h) | h
  · exact absurd h (by decide)
  · refine nl_not_mem_sepJoin _ ?_ h
    intro x hx
    rw [List.mem_map] at hx
    obtain ⟨p, hp, rfl⟩ := hx
    rw [objReady, List.all_eq_true] at ho
    have := ho p hp
    rw [Bool.and_eq_true] at this
    exact nl_not_mem_encPair this.1 (nl_not_mem_encPrim this.2)
  · rw [List.mem_singleton] at h
    exact absurd h (by decide)

theorem nl_not_mem_encField {f : JField} (hf : fieldReady f = true) :
    '\n' ∉ encField f := by
  cases f with
  | sc v => exact nl_not_mem_encPrim hf
  | arr l =>
    rw [encField]
    intro h
    rw [List.mem_append, List.mem_cons] at h
    rcases h with (h | h) | h
    · exact absurd h (by decide)
    · refine nl_not_mem_sepJoin _ ?_ h
      intro x hx
      rw [List.mem_map] at hx
      obtain ⟨o, ho, rfl⟩ := hx
      rw [fieldReady, List.all_eq_true] at hf
      exact nl_not_mem_encObj (hf o ho)
    · rw [List.mem_singleton] at h
      exact absurd h (by decide)

theorem nl_not_mem_encEvent {e : Event} (he : jsonReady e = true) :
    '\n' ∉ encEvent e := by
  rw [encEvent]
  intro h
  rw [List.mem_append, List.mem_cons] at h
  rcases h with (h | h) | h
  · exact absurd h (by decide)
  · refine nl_not_mem_sepJoin _ ?_ h
    intro x hx
    rw [List.mem_map] at hx
    obtain ⟨p, hp, rfl⟩ := hx
    rw [jsonReady, List.all_eq_true] at he
    have := he p hp
    rw [Bool.and_eq_true] at this
    exact nl_not_mem_encPair this.1 (nl_not_mem_encField this.2)
  · rw [List.mem_singleton] at h
    exact absurd h (by decide)

end RestroModel

namespace RestroModel

theorem splitNl_prepend : ∀ (x rest : List Char), '\n' ∉ x →
    splitNl (x ++ '\n' :: rest) = x :: splitNl rest
  | [], rest, _ => by
    rw [List.nil_append, splitNl, if_pos rfl]
  | c :: x, rest, h => by
    rw [List.cons_append, splitNl]
    have hc : ¬c = '\n' := fun he => h (he ▸ List.mem_cons_self c x)
    rw [if_neg hc, splitNl_prepend x rest (fun hm => h (List.mem_cons_of_mem _ hm))]

theorem splitNl_writeBatch : ∀ evs : List Event,
    (∀ e ∈ evs, jsonReady e = true) →
    splitNl (writeBatch evs) = evs.map encEvent ++ [[]]
  | [], _ => by
    rw [writeBatch]
    simp [splitNl]
  | e :: evs, h => by
    have hshape : writeBatch (e :: evs) =
        encEvent e ++ '\n' :: writeBatch evs := by
      rw [writeBatch, writeBatch, List.map_cons, List.flatten_cons]
      simp
    rw [hshape, splitNl_prepend _ _
      (nl_not_mem_encEvent (h e (List.mem_cons_self e evs)))]
    rw [splitNl_writeBatch evs (fun x hx => h x (List.mem_cons_of_mem e hx))]
    simp

theorem linesOf_writeBatch (evs : List Event)
    (h : ∀ e ∈ evs, jsonReady e = true) :
    linesOf (writeBatch evs) = evs.map encEvent := by
  rw [linesOf, splitNl_writeBatch evs h]
  simp

theorem strip_encEvent (ev : Event) : strip (encEvent ev) = encEvent ev := by
  have hshape : encEvent ev = lbr :: (encEvInner ev ++ [rbr]) := encEvent_eq ev
  rw [hshape, strip]
  rw [List.dropWhile_cons, if_neg (by decide : ¬(isSpaceCh lbr = true))]
  have hrev : (lbr :: (encEvInner ev ++ [rbr])).reverse =
      rbr :: ((encEvInner ev).reverse ++ [lbr]) := by
    simp
  rw [hrev, List.dropWhile_cons, if_neg (by decide : ¬(isSpaceCh rbr = true))]
  rw [← hrev, List.reverse_reverse]

theorem readAllGo_enc : ∀ (evs acc : List Event),
    readAllGo (evs.map encEvent) acc = acc ++ evs
  | [], acc => by simp [readAllGo]
  | e :: evs, acc => by
    rw [List.map_cons, readAllGo, strip_encEvent, parseLine_enc]
    dsimp only
    rw [readAllGo_enc evs (acc ++ [e])]
    simp

end RestroModel

namespace RestroModel

/-- C7: writing any list of JSON-representable events in the generator's
output format (one `json.dumps` line per event, as `generate_sample_batch`
does) and reading the file back through `FileBasedEventStream.read_all`
returns exactly the same events in the same order. -/
theorem c7_roundtrip (evs : List Event)
    (h : ∀ e ∈ evs, jsonReady e = true) :
    read_all (openStream (writeBatch evs)) = .ok evs := by
  rw [openStream, read_all]
  simp only [if_pos]
  rw [linesOf_writeBatch evs h, readAllGo_enc evs []]
  rw [List.nil_append]

/-- A concrete payment-like event with a nested items array, used to
instantiate the round-trip theorem. -/
def e7a : Event :=
  [("event_id", .sc (.s "evt-1001")),
   ("event_type", .sc (.s "order_placed")),
   ("items", .arr [[("item_id", .n 301 0), ("quantity", .n 2 0)],
                   [("item_id", .n 412 0), ("quantity", .n 1 0)]]),
   ("subtotal", .sc (.n 1850 2))]

/-- A second concrete event with a negative decimal value. -/
def e7b : Event :=
  [("event_id", .sc (.s "evt-1002")),
   ("tip_amount", .sc (.n (-25) 1))]

/-- Concrete batch for the round-trip witness. -/
def evs7 : List Event := [e7a, e7b]

set_option maxRecDepth 10000 in
theorem c7w : (∀ e ∈ evs7, jsonReady e = true) ∧
    read_all (openStream (writeBatch evs7)) = .ok evs7 :=
  ⟨by decide, c7_roundtrip evs7 (by decide)⟩

end RestroModel
